import Mathlib

/-!
# Verification of the whatsapp-archive-browse pipeline

A shallow embedding of the Python sources of `whatsapp-archive-browse`
(`src/chat_data.py`, `src/vfs.py`, `src/chat_vfs_merge.py`, `src/parser.py`,
`src/message_processor.py`, `src/output_file_generator.py`,
`src/media_locator.py`, `src/output_dependency_checker.py`,
`src/metadata_updater.py`) together with proofs about the embedded program.

Modelling conventions, used throughout:

* Python `dict`s are modelled as insertion-ordered association lists
  (`List (κ × β)`); updating an existing key replaces the value in place
  (keeping its position), inserting a fresh key appends at the end — exactly
  Python's dict semantics.  Python dict equality (`==`, order-insensitive
  key/value equality) is modelled by the `deq` functions defined below.
* Python `set`s are modelled as duplicate-free insertion-ordered lists;
  `set.add` appends if the element is not yet present.  Python set iteration
  order is unspecified; the model fixes it to insertion order.  Python set
  equality is modelled by mutual list inclusion (`setEq`).
* File modification times (`float` in Python) are modelled as `Nat` — the
  program only compares them for ordering and embeds them in hash keys.
* `ChatFileID.create` computes `base64(sha1(f"{mtime}:{size}:{path}"))`.
  The digest step is modelled by the (injective) pre-image key string itself:
  the program relies on the hash being collision-free on the metadata triple
  ("Equal iff the three attributes are equal"), and no claim is about the
  digest bytes.
* Python text: strings are Lean `String`s; `str.splitlines(keepends=True)`
  is modelled for `\n`-terminated text, the regex character classes `\s` and
  `[^\W\d_]` are modelled over the ASCII range (all claims are insensitive
  to the exact character classes).
-/

set_option maxRecDepth 4096

namespace WArch

/-! ## Python dict / set primitives -/

/-- Python `dict` lookup (`d.get(k)` / `d[k]`). -/
def dget {κ β : Type} [DecidableEq κ] (d : List (κ × β)) (k : κ) : Option β :=
  match d with
  | [] => none
  | (k', v) :: rest => if k' = k then some v else dget rest k

/-- Python `dict` assignment `d[k] = v`: replace in place if the key exists,
append otherwise. -/
def dput {κ β : Type} [DecidableEq κ] (d : List (κ × β)) (k : κ) (v : β) :
    List (κ × β) :=
  match d with
  | [] => [(k, v)]
  | (k', v') :: rest =>
      if k' = k then (k', v) :: rest else (k', v') :: dput rest k v

/-- Python `k in d`. -/
def dmem {κ β : Type} [DecidableEq κ] (d : List (κ × β)) (k : κ) : Bool :=
  (dget d k).isSome

/-- Python `d.values()` (in insertion order). -/
def dvalues {κ β : Type} (d : List (κ × β)) : List β := d.map Prod.snd

/-- Python `d.keys()` (in insertion order). -/
def dkeys {κ β : Type} (d : List (κ × β)) : List κ := d.map Prod.fst

/-- Python dict equality `d1 == d2` with values compared by `veq`:
key sets coincide and values at equal keys are `veq`-equal. -/
def deqBy {κ β : Type} [DecidableEq κ] (veq : β → β → Bool)
    (d₁ d₂ : List (κ × β)) : Bool :=
  (d₁.all fun kv => match dget d₂ kv.1 with
    | some v => veq kv.2 v
    | none => false) &&
  (d₂.all fun kv => (dget d₁ kv.1).isSome)

/-- Python `set.add`. -/
def sadd {α : Type} [DecidableEq α] (s : List α) (x : α) : List α :=
  if x ∈ s then s else s ++ [x]

/-- Python set equality (mutual inclusion). -/
def setEq {α : Type} [DecidableEq α] (s₁ s₂ : List α) : Bool :=
  (s₁.all fun x => x ∈ s₂) && (s₂.all fun x => x ∈ s₁)

/-! ## Data model (`src/chat_data.py`) -/

/-- `ChatFileID`: unique identifier for a file based on its path, size and
modification time (`chat_data.py`). -/
structure ChatFileID where
  value : String
  deriving DecidableEq, Repr

/-- The character for a decimal digit. -/
def digitChar (d : Nat) : Char :=
  match d with
  | 0 => '0' | 1 => '1' | 2 => '2' | 3 => '3' | 4 => '4'
  | 5 => '5' | 6 => '6' | 7 => '7' | 8 => '8' | _ => '9'

/-- The decimal digit denoted by a character (`'0'`–`'9'`). -/
def charDigit (c : Char) : Nat := c.toNat - 48

/-- Little-endian decimal digit characters of `n` (with explicit fuel to
keep the definition kernel-reducible). -/
def natToDigitsRev (fuel n : Nat) : List Char :=
  match fuel with
  | 0 => []
  | f + 1 => if n = 0 then [] else digitChar (n % 10) :: natToDigitsRev f (n / 10)

/-- Decimal rendering of a natural number; models Python `str` on the
nonnegative integers appearing in id keys and JSON keys. -/
def natToStr (n : Nat) : String :=
  if n = 0 then "0" else String.mk (natToDigitsRev n n).reverse

/-- The value of little-endian decimal digit characters. -/
def digitsRevToNat : List Char → Nat
  | [] => 0
  | c :: r => charDigit c + 10 * digitsRevToNat r

/-- Decimal parsing of a natural number; models Python `int` on the decimal
strings appearing as JSON year keys. -/
def strToNat? (s : String) : Option Nat :=
  if s.data ≠ [] ∧ s.data.all (·.isDigit) then
    some (digitsRevToNat s.data.reverse)
  else none

/-- `ChatFileID.create`: hashes the key `f"{mtime}:{size}:{path}"`.  The
sha1/base64 digest is modelled by the key itself (see the header). -/
def ChatFileID.create (mtime : Nat) (size : Nat) (path : String) : ChatFileID :=
  ⟨natToStr mtime ++ ":" ++ natToStr size ++ ":" ++ path⟩

/-- `ChatFile`: a file in the archive tree (`chat_data.py`).  The Python
field `exists` is rendered `exists_` (`exists` is reserved in Lean). -/
structure ChatFile where
  path : String
  size : Nat
  modification_timestamp : Nat
  parent_zip : Option ChatFileID := none
  exists_ : Bool := true
  deriving DecidableEq, Repr

/-- `ChatFile.id` property. -/
def ChatFile.id (f : ChatFile) : ChatFileID :=
  ChatFileID.create f.modification_timestamp f.size f.path

/-- `Message` (`chat_data.py`). -/
structure Message where
  timestamp : String
  sender : String
  content : String
  year : Nat
  input_file_id : ChatFileID := ⟨""⟩
  media_name : Option String := none
  deriving DecidableEq, Repr

/-- `ChatName` (`chat_data.py`). -/
structure ChatName where
  name : String
  deriving DecidableEq, Repr

/-- `OutputFile` (`chat_data.py`): a `YYYY.html` output and its
dependencies. -/
structure OutputFile where
  year : Nat
  generate : Bool := false
  media_dependencies : List (String × Option ChatFileID) := []
  chat_dependencies : List ChatFileID := []
  css_dependency : Option ChatFileID := none
  deriving DecidableEq, Repr

/-- Python `==` on `OutputFile`: dataclass equality, with the
`media_dependencies` dict compared as a mapping and the
`chat_dependencies` set compared as a set. -/
def OutputFile.pyEq (a b : OutputFile) : Bool :=
  a.year = b.year && a.generate = b.generate &&
  deqBy (fun x y => x = y) a.media_dependencies b.media_dependencies &&
  setEq a.chat_dependencies b.chat_dependencies &&
  a.css_dependency = b.css_dependency

/-- `Chat` (`chat_data.py`). -/
structure Chat where
  chat_name : ChatName
  messages : List Message := []
  output_files : List (Nat × OutputFile) := []
  deriving DecidableEq, Repr

/-- Python `==` on `Chat` (dict of output files compared as a mapping). -/
def Chat.pyEq (a b : Chat) : Bool :=
  a.chat_name = b.chat_name && a.messages = b.messages &&
  deqBy OutputFile.pyEq a.output_files b.output_files

/-- `ChatData` (`chat_data.py`): the persisted aggregate. -/
structure ChatData where
  chats : List (ChatName × Chat) := []
  timestamp : String := "1970-01-01T00:00:00"
  input_files : List (ChatFileID × ChatFile) := []
  deriving DecidableEq, Repr

/-- Python `==` on `ChatData`. -/
def ChatData.pyEq (a b : ChatData) : Bool :=
  deqBy Chat.pyEq a.chats b.chats &&
  a.timestamp = b.timestamp &&
  deqBy (fun x y => x = y) a.input_files b.input_files

/-! ## Path helpers (`os.path` / `pathlib` operations used by the sources) -/

/-- `os.path.basename`: the part after the last `/`. -/
def basename (p : String) : String :=
  String.mk (p.data.reverse.takeWhile (fun c => c ≠ '/')).reverse

/-- `str(Path(p).parent)`: drop the last path component; `.` for a bare
filename.  (Paths handed to it by the sources are slash-separated relative
file paths without repeated or trailing separators.) -/
def pyParent (p : String) : String :=
  if p.data.contains '/' then
    String.mk ((p.data.reverse.dropWhile (fun c => c ≠ '/')).drop 1).reverse
  else "."

/-- Python `str.replace` (all non-overlapping occurrences, left to right);
the pattern is never empty where the program calls it. -/
def replaceAllAux (pat repl : List Char) : Nat → List Char → List Char
  | 0, s => s
  | _ + 1, [] => []
  | fuel + 1, c :: rest =>
      if pat ≠ [] ∧ (c :: rest).take pat.length = pat then
        repl ++ replaceAllAux pat repl fuel ((c :: rest).drop pat.length)
      else c :: replaceAllAux pat repl fuel rest

/-- See `replaceAllAux`. -/
def pyReplace (s pat repl : String) : String :=
  String.mk (replaceAllAux pat.data repl.data s.data.length s.data)

/-- Python string `<` (code-point lexicographic). -/
def charListLt : List Char → List Char → Bool
  | [], [] => false
  | [], _ :: _ => true
  | _ :: _, [] => false
  | a :: as, b :: bs =>
      if a.toNat < b.toNat then true
      else if a.toNat = b.toNat then charListLt as bs else false

/-- Python string `<=`. -/
def pyStrLe (a b : String) : Bool := !(charListLt b.data a.data)

/-- `str(Path(d) / m)`: join, with `pathlib`'s normalization of a leading
`./`. -/
def pyJoin (d m : String) : String :=
  if d = "." ∨ d = "" then m else d ++ "/" ++ m

/-! ## Virtual file system (`src/vfs.py`) -/

/-- `ChatFileSet` (`vfs.py`): set of `ChatFile`s.  Python sets are modelled
as duplicate-free insertion-ordered lists (see the header). -/
abbrev ChatFileSet := List ChatFile

/-- `ChatFileSet.add`. -/
def ChatFileSet.add (s : ChatFileSet) (f : ChatFile) : ChatFileSet :=
  if f ∈ s then s else s ++ [f]

/-- `ChatFileSet.discard`. -/
def ChatFileSet.discard (s : ChatFileSet) (f : ChatFile) : ChatFileSet :=
  s.filter (fun g => g ≠ f)

/-- `VFS` (`vfs.py`): three indexes over a shared set of `ChatFile`s.

The `file_contents` field is Modelled from the spec: the backing byte
storage behind `VFS.open_file` (the `base_path` / reader machinery absent
from `src/vfs.py`) is modelled as a map from `ChatFileID` to file text. -/
structure VFS where
  files_by_id : List (ChatFileID × ChatFile) := []
  files_by_path : List (String × ChatFile) := []
  files_by_name : List (String × ChatFileSet) := []
  file_contents : List (ChatFileID × String) := []
  deriving DecidableEq

/-- `VFS.add_file`: add a `ChatFile` to the VFS with all necessary
indexing. -/
def VFS.add_file (vfs : VFS) (chat_file : ChatFile) : VFS :=
  let ids := dput vfs.files_by_id chat_file.id chat_file
  let paths := dput vfs.files_by_path chat_file.path chat_file
  let b := basename chat_file.path
  let names :=
    if dmem vfs.files_by_name b then
      dput vfs.files_by_name b (ChatFileSet.add ((dget vfs.files_by_name b).getD []) chat_file)
    else dput vfs.files_by_name b (ChatFileSet.add [] chat_file)
  { vfs with files_by_id := ids, files_by_path := paths, files_by_name := names }

/-- `VFS.get_by_id`. -/
def VFS.get_by_id (vfs : VFS) (file_id : ChatFileID) : Option ChatFile :=
  dget vfs.files_by_id file_id

/-- `VFS.get_by_path`. -/
def VFS.get_by_path (vfs : VFS) (path : String) : Option ChatFile :=
  dget vfs.files_by_path path

/-- `VFS.find_by_name`: all `ChatFile`s with the given basename (an empty
set when the key is absent). -/
def VFS.find_by_name (vfs : VFS) (filename : String) : ChatFileSet :=
  (dget vfs.files_by_name filename).getD []

/-- `VFS.exists`: the file is indexed and its `exists` flag is true. -/
def VFS.exists_ (vfs : VFS) (file_id : ChatFileID) : Bool :=
  match vfs.get_by_id file_id with
  | some f => f.exists_
  | none => false

/-- `VFS.remove_file`: remove a `ChatFile` from all indexes. -/
def VFS.remove_file (vfs : VFS) (chat_file : ChatFile) : VFS :=
  let ids := vfs.files_by_id.filter (fun kv => kv.1 ≠ chat_file.id)
  let paths := vfs.files_by_path.filter (fun kv => kv.1 ≠ chat_file.path)
  let b := basename chat_file.path
  let names :=
    match dget vfs.files_by_name b with
    | some s =>
        let s' := ChatFileSet.discard s chat_file
        if s'.isEmpty then vfs.files_by_name.filter (fun kv => kv.1 ≠ b)
        else dput vfs.files_by_name b s'
    | none => vfs.files_by_name
  { vfs with files_by_id := ids, files_by_path := paths, files_by_name := names }

/-- The `exists=False` copy of a handle, as constructed by
`VFS.mark_nonexistent` and `merge_chat_files_into_vfs`. -/
def nonexistentCopy (old_file : ChatFile) : ChatFile :=
  { path := old_file.path, size := old_file.size,
    modification_timestamp := old_file.modification_timestamp,
    parent_zip := old_file.parent_zip, exists_ := false }

/-- `VFS.mark_nonexistent`: replace the handle with an `exists=False` copy
in all three indexes. -/
def VFS.mark_nonexistent (vfs : VFS) (file_id : ChatFileID) : VFS :=
  match vfs.get_by_id file_id with
  | none => vfs
  | some old_file =>
      let new_file : ChatFile := nonexistentCopy old_file
      let ids := dput vfs.files_by_id file_id new_file
      let paths := dput vfs.files_by_path new_file.path new_file
      let b := basename new_file.path
      let names :=
        if dmem vfs.files_by_name b then
          let old_set := (dget vfs.files_by_name b).getD []
          let new_set := old_set.foldl (fun acc f =>
            ChatFileSet.add acc (if f.id = file_id then new_file else f)) []
          dput vfs.files_by_name b new_set
        else vfs.files_by_name
      { vfs with files_by_id := ids, files_by_path := paths, files_by_name := names }

/-- Modelled from the spec: `VFS.open_file` is called by the parser and the
HTML emitter but is absent from `src/vfs.py` (only callers survive under
`src/`).  Spec §4.1: `open(handle)` returns a readable stream over the
handle's bytes and "Fails with `NotFound` if the handle's `exists` is false
or the underlying source is unreadable."  The handle's bytes are the
`file_contents` entry for its id (the id determines the path). -/
def VFS.open_file (vfs : VFS) (f : ChatFile) : Option String :=
  if f.exists_ then dget vfs.file_contents f.id else none

/-! ## Parser (`src/parser.py`)

`parse_chat_line` models `chat_line_regex` — a deterministic rendering of
the backtracking regex match:

* optional leading U+200E;
* `\[` … `\]`: the timestamp is everything up to the first `]` (both
  timestamp segments are `[^]]`-classes, so the closing bracket is the
  first `]`), and must contain a 4-digit year `19xx`/`20xx` (the leftmost
  occurrence is captured, as the first segment is non-greedy);
* one whitespace, then the optional greedy tilde-wrap `(~\s)?` (tried
  first, dropped on failure of the remainder, as backtracking would);
* the sender is the non-empty run up to the first `:` (a `[^:]+` class can
  only stop at the first colon);
* `: `, one whitespace, optional U+200E, optional back-reference to the
  tilde wrap, and the content is the entire rest of the line (DOTALL). -/

/-- A raw parsed chat line (`parser.py` `RawChatLine`). -/
structure RawChatLine where
  timestamp : String
  year : Nat
  sender : String
  content : String
  deriving DecidableEq, Repr

/-- Python regex `\s` (ASCII range; the Unicode spaces matched by Python
are immaterial to every claim). -/
def isPySpace (c : Char) : Bool :=
  c = ' ' || c = '\t' || c = '\n' || c = '\r' || c = '\x0b' || c = '\x0c'

/-- Leftmost occurrence of `(19|20)[0-9][0-9]` in the timestamp characters
(the non-greedy first segment of the timestamp group). -/
def findYear : List Char → Option Nat
  | [] => none
  | c0 :: rest =>
    match rest with
    | c1 :: c2 :: c3 :: _ =>
        if ((c0 = '1' ∧ c1 = '9') ∨ (c0 = '2' ∧ c1 = '0')) ∧ c2.isDigit ∧ c3.isDigit then
          some ((charDigit c0) * 1000 + (charDigit c1) * 100 +
                (charDigit c2) * 10 + charDigit c3)
        else findYear rest
    | _ => none

/-- The sender/content tail of the chat-line match, for a fixed choice of
the tilde wrap. -/
def senderContent (ts : List Char) (y : Nat) (tw : Option Char) (cs : List Char) :
    Option RawChatLine :=
  let sender := cs.takeWhile (fun c => c ≠ ':')
  if sender.isEmpty then none
  else
    match cs.dropWhile (fun c => c ≠ ':') with
    | ':' :: r5 =>
      match r5 with
      | sp2 :: r6 =>
        if isPySpace sp2 then
          let r7 := match r6 with
            | '\u200E' :: r => r
            | _ => r6
          let r8 := match tw, r7 with
            | some w, a :: b :: r => if a = '~' ∧ b = w then r else r7
            | _, _ => r7
          some ⟨String.mk ts, y, String.mk sender, String.mk r8⟩
        else none
      | [] => none
    | _ => none

/-- `parse_chat_line` (`parser.py`): match one line against
`chat_line_regex`. -/
def parse_chat_line (line : String) : Option RawChatLine :=
  let cs := line.data
  let cs := match cs with
    | '\u200E' :: r => r
    | _ => cs
  match cs with
  | '[' :: r =>
    let ts := r.takeWhile (fun c => c ≠ ']')
    match r.dropWhile (fun c => c ≠ ']') with
    | ']' :: r2 =>
      match findYear ts with
      | none => none
      | some y =>
        match r2 with
        | sp :: r3 =>
          if isPySpace sp then
            (match r3 with
              | '~' :: w :: r4 =>
                  if isPySpace w then senderContent ts y (some w) r4 else none
              | _ => none) <|> senderContent ts y none r3
          else none
        | [] => none
    | _ => none
  | _ => none

/-! `media_regex = <(?:[^\W\d_]{1,20}\s?){1,3}: (.*?)>` with `re.search`:
a full backtracking rendering.  `[^\W\d_]` (Unicode letter) is modelled by
`Char.isAlpha`; the claims are insensitive to the exact letter class. -/

/-- Try the letter run `[^\W\d_]{1,20}` at `cs`: greedy, so longer runs are
tried first; `k` is the continuation on the rest. -/
def tryLetters {α : Type} (cs : List Char) (k : List Char → Option α) : Option α :=
  let run := min 20 (cs.takeWhile Char.isAlpha).length
  go run
where
  go : Nat → Option α
    | 0 => none
    | n + 1 => k (cs.drop (n + 1)) <|> go n

/-- One unit `[^\W\d_]{1,20}\s?` (the optional whitespace is greedy). -/
def tryUnit {α : Type} (cs : List Char) (k : List Char → Option α) : Option α :=
  tryLetters cs (fun cs' =>
    match cs' with
    | w :: r => if isPySpace w then k r <|> k cs' else k cs'
    | [] => k cs')

/-- The group `(?:[^\W\d_]{1,20}\s?){1,3}`: greedy repetition, so another
unit is preferred over stopping; `fin` is the continuation after the
group. -/
def tryUnits {α : Type} (fuel : Nat) (cs : List Char) (fin : List Char → Option α) :
    Option α :=
  tryUnit cs (fun cs' =>
    (match fuel with
      | 0 | 1 => none
      | n + 2 => tryUnits (n + 1) cs' fin) <|> fin cs')

/-- The tail `: (.*?)>` (no DOTALL: `.` excludes the newline; the lazy
group stops at the first `>`).  Returns the filename characters and the
rest after the closing `>`. -/
def mediaTail (cs : List Char) : Option (List Char × List Char) :=
  match cs with
  | ':' :: ' ' :: r =>
    let fn := r.takeWhile (fun c => c ≠ '>' ∧ c ≠ '\n')
    match r.dropWhile (fun c => c ≠ '>' ∧ c ≠ '\n') with
    | '>' :: rest => some (fn, rest)
    | _ => none
  | _ => none

/-- `media_regex.search`: leftmost match; returns
`(group(1), group(0))` — the filename and the whole matched span. -/
def mediaSearch : List Char → Option (String × String)
  | [] => none
  | '<' :: r =>
    (match tryUnits 3 r mediaTail with
      | some (fn, rest) =>
          some (String.mk fn, String.mk ('<' :: r.take (r.length - rest.length)))
      | none => mediaSearch r)
  | _ :: r => mediaSearch r

/-- `raw_chat_line_to_message` (`parser.py`). -/
def raw_chat_line_to_message (raw : RawChatLine) (input_file : ChatFile) : Message :=
  match mediaSearch raw.content.data with
  | some (fn, span) =>
      { timestamp := raw.timestamp, sender := raw.sender,
        content := pyReplace raw.content span "", year := raw.year,
        input_file_id := input_file.id, media_name := some fn }
  | none =>
      { timestamp := raw.timestamp, sender := raw.sender,
        content := raw.content, year := raw.year,
        input_file_id := input_file.id, media_name := none }

/-- `str.splitlines(keepends=True)` for `\n`-separated text (the only line
terminator produced by the embedded transcripts). -/
def splitLinesAux : List Char → List Char → List String
  | [], acc => if acc.isEmpty then [] else [String.mk acc.reverse]
  | '\n' :: rest, acc => String.mk (acc.reverse ++ ['\n']) :: splitLinesAux rest []
  | c :: rest, acc => splitLinesAux rest (c :: acc)

/-- Python `content.splitlines(keepends=True)`. -/
def pySplitLines (s : String) : List String := splitLinesAux s.data []

/-- One line through the message-assembly loop of `parse_chat_lines`: a
matching line finalizes the current message and starts a new one, a
non-matching line continues the current message's content. -/
def parseFoldStep (input_file : ChatFile)
    (st : List Message × RawChatLine × List String) (line : String) :
    List Message × RawChatLine × List String :=
  match parse_chat_line line with
  | some nxt =>
      (st.1 ++ [raw_chat_line_to_message
                  { st.2.1 with content := String.join st.2.2 } input_file],
       nxt, [nxt.content])
  | none => (st.1, st.2.1, st.2.2 ++ [line])

/-- `parse_chat_lines` (`parser.py`): assemble messages from lines; a
non-matching line continues the current message's content. -/
def parse_chat_lines (lines : List String) (input_file : ChatFile) : Option Chat :=
  match lines with
  | [] => none
  | l0 :: rest =>
    match parse_chat_line l0 with
    | none => none
    | some first =>
      let chat_name : ChatName := ⟨first.sender⟩
      let st := rest.foldl (parseFoldStep input_file) ([], first, [first.content])
      let messages := st.1 ++
        [raw_chat_line_to_message { st.2.1 with content := String.join st.2.2 } input_file]
      some { chat_name := chat_name, messages := messages, output_files := [] }

/-- `parse_chat_file` (`parser.py`): read the file through the VFS and
parse it; any failure (unreadable file, empty file, bad first line) yields
`none`. -/
def parse_chat_file (vfs : VFS) (chat_file : ChatFile) : Option Chat :=
  match vfs.open_file chat_file with
  | none => none
  | some content =>
      let lines := pySplitLines content
      if lines.isEmpty then none
      else parse_chat_lines lines chat_file

/-- `merge_chat_files_into_vfs` (`src/chat_vfs_merge.py`): patch `ChatFile`s
from `ChatData` into the VFS, marking them as non-existing. -/
def merge_chat_files_into_vfs (chat_data : ChatData) (vfs : VFS) : VFS :=
  chat_data.input_files.foldl (fun v kv =>
    if v.get_by_id kv.1 = none then v.add_file (nonexistentCopy kv.2)
    else v) vfs

/-! ## Message processor (`src/message_processor.py`) -/

/-- The deduplication key `f"{msg.timestamp}|{msg.sender}|{msg.content}"`
of `process_messages`. -/
def msgHash (m : Message) : String :=
  m.timestamp ++ "|" ++ m.sender ++ "|" ++ m.content

/-- An entry of `chat_files_by_name`: `(file_mtime, file, chat)`. -/
abbrev Tup := Nat × ChatFile × Chat

/-- The first phase of `process_messages`: seed `chat_files_by_name` from
the previous run's chats. -/
def seedOldChats (vfs : VFS) (old_chat_data : ChatData) :
    List (ChatName × List Tup) :=
  old_chat_data.chats.foldl (fun acc kv =>
    let chat_name := kv.1
    let old_chat := kv.2
    old_chat.messages.foldl (fun acc msg =>
      let file_id := msg.input_file_id
      if file_id.value ≠ "" ∧ (vfs.exists_ file_id ∨ vfs.get_by_id file_id = none) then
        let acc := if dmem acc chat_name then acc else dput acc chat_name []
        let file := (vfs.get_by_id file_id).getD
          { path := "", size := 0, modification_timestamp := 0, exists_ := false }
        let lst := (dget acc chat_name).getD []
        if (lst.filter (fun t => t.2.2.chat_name = chat_name)).isEmpty then
          dput acc chat_name (lst ++ [(file.modification_timestamp, file, old_chat)])
        else acc
      else acc) acc) []

/-- The `old_parsed` skip test of `process_messages`: some already
collected tuple has the given file id. -/
def anyTupleId (acc : List (ChatName × List Tup)) (file_id : ChatFileID) : Bool :=
  acc.any (fun kv => kv.2.any (fun t => t.2.1.id = file_id))

/-- The second phase of `process_messages`: walk `vfs.files_by_path` and
parse every `_chat.txt` that exists and was not contributed by the seed
phase. -/
def collectNewFiles (vfs : VFS) (acc : List (ChatName × List Tup)) :
    List (ChatName × List Tup) :=
  (dvalues vfs.files_by_path).foldl (fun acc file =>
    if basename file.path = "_chat.txt" ∧ file.exists_ then
      if anyTupleId acc file.id then acc
      else
        match parse_chat_file vfs file with
        | some chat =>
            let acc := if dmem acc chat.chat_name then acc else dput acc chat.chat_name []
            dput acc chat.chat_name
              (((dget acc chat.chat_name).getD []) ++
                [(file.modification_timestamp, file, chat)])
        | none => acc
    else acc) acc

/-- Python's stable `list.sort(key=lambda x: x[0])` on the tuple lists,
modelled by a stable insertion sort on the modification timestamp. -/
def insertByMtime (t : Tup) : List Tup → List Tup
  | [] => [t]
  | u :: us => if t.1 ≤ u.1 then t :: u :: us else u :: insertByMtime t us

/-- See `insertByMtime`. -/
def pySortByMtime (l : List Tup) : List Tup := l.foldr insertByMtime []

/-- The per-chat deduplicating append of `process_messages`: messages whose
hash was already seen are dropped, the others are appended and their hash
recorded. -/
def dedupStep (st : List String × List Message) (msgs : List Message) :
    List String × List Message :=
  msgs.foldl (fun (st : List String × List Message) msg =>
    let h := msgHash msg
    if h ∈ st.1 then st else (st.1 ++ [h], st.2 ++ [msg])) st

/-- One tuple through the merge phase of `process_messages`: record the
file in `input_files` and append the non-duplicate messages. -/
def mergeStep (st : List (ChatFileID × ChatFile) × List String × List Message)
    (t : Tup) : List (ChatFileID × ChatFile) × List String × List Message :=
  (dput st.1 t.2.1.id t.2.1, dedupStep (st.2.1, st.2.2) t.2.2.messages)

/-- The merge phase of `process_messages` for one chat: sort the tuples by
modification time, record each file in `input_files` and concatenate the
deduplicated messages. -/
def mergeChatTuples (input_files : List (ChatFileID × ChatFile)) (tuples : List Tup) :
    List (ChatFileID × ChatFile) × List Message :=
  let st := (pySortByMtime tuples).foldl mergeStep (input_files, [], [])
  (st.1, st.2.2)

/-- One chat through the final loop of `process_messages`. -/
def processChatStep (st : List (ChatName × Chat) × List (ChatFileID × ChatFile))
    (kv : ChatName × List Tup) :
    List (ChatName × Chat) × List (ChatFileID × ChatFile) :=
  let r := mergeChatTuples st.2 kv.2
  (dput st.1 kv.1 { chat_name := kv.1, messages := r.2, output_files := [] }, r.1)

/-- `process_messages` (`src/message_processor.py`). -/
def process_messages (vfs : VFS) (old_chat_data : ChatData) : ChatData :=
  let chat_files_by_name := collectNewFiles vfs (seedOldChats vfs old_chat_data)
  let st := chat_files_by_name.foldl processChatStep ([], [])
  { chats := st.1, timestamp := "1970-01-01T00:00:00", input_files := st.2 }

/-! ## Output file planner (`src/output_file_generator.py`) -/

/-- The CSS asset's path (`browseability-generator.css`, read from the
program's own source directory). -/
def cssPath : String := "browseability-generator.css"

/-- The CSS asset handle built by `generate_output_files`; its size and
modification time are read from the environment and passed as parameters. -/
def cssFile (cssSize cssMtime : Nat) : ChatFile :=
  { path := cssPath, size := cssSize, modification_timestamp := cssMtime,
    parent_zip := none, exists_ := true }

/-- The per-chat body of `generate_output_files`: one pass over the
messages collecting the year set and the per-year `chat_dependencies`,
then one fresh `OutputFile` per year.  (The source assigns the new
`OutputFile` to `chat.output_files[year]` twice in a row; the duplicate
assignment is a no-op.) -/
def plannedChat (css : ChatFile) (chat : Chat) : Chat :=
  let st := chat.messages.foldl
    (fun (st : List Nat × List (Nat × List ChatFileID)) msg =>
      let message_years := sadd st.1 msg.year
      let chat_dependencies :=
        if msg.input_file_id.value ≠ "" then
          dput st.2 msg.year (sadd ((dget st.2 msg.year).getD []) msg.input_file_id)
        else st.2
      (message_years, chat_dependencies)) ([], [])
  let output_files := st.1.foldl (fun ofs year =>
    dput ofs year
      { year := year, generate := false, media_dependencies := [],
        chat_dependencies := (dget st.2 year).getD [],
        css_dependency := some css.id }) []
  { chat with output_files := output_files }

def generate_output_files (cssSize cssMtime : Nat) (chat_data : ChatData) : ChatData :=
  let css := cssFile cssSize cssMtime
  { chat_data with
    chats := chat_data.chats.map (fun kv => (kv.1, plannedChat css kv.2)),
    input_files := dput chat_data.input_files css.id css }

/-! ## Media locator (`src/media_locator.py`) -/

/-- `find_media_file` (`src/media_locator.py`): same-directory preference,
then fall back to any file with the same basename (`next(iter(...))` is the
first element in the modelled set order). -/
def find_media_file (vfs : VFS) (media_name : String) (chat_file_path : String) :
    Option ChatFile :=
  match vfs.get_by_path chat_file_path with
  | none => (vfs.find_by_name media_name).head?
  | some chat_file =>
    let chat_dir := pyParent chat_file.path
    let media_path := pyJoin chat_dir media_name
    match vfs.get_by_path media_path with
    | some media_file => some media_file
    | none => (vfs.find_by_name media_name).head?

/-- The message pass of `process_media_dependencies` for one chat: build
`media_by_year` (resolving each unique media name once per year) and
collect the media handles found, in discovery order (the source inserts
them into `input_files` on the spot; the insertion is performed by
`process_media_dependencies` below in the same order). -/
def locateMedia (vfs : VFS) (chat : Chat) :
    List (Nat × List (String × Option ChatFileID)) × List ChatFile :=
  chat.messages.foldl
    (fun (mst : List (Nat × List (String × Option ChatFileID)) × List ChatFile) msg =>
      match msg.media_name with
      | none => mst
      | some media_name =>
        let year := msg.year
        let media_by_year := if dmem mst.1 year then mst.1 else dput mst.1 year []
        if dmem ((dget media_by_year year).getD []) media_name then
          (media_by_year, mst.2)
        else
          match vfs.get_by_id msg.input_file_id with
          | none => (media_by_year, mst.2)
          | some chat_file =>
            let media_file := find_media_file vfs media_name chat_file.path
            let media_by_year := dput media_by_year year
              (dput ((dget media_by_year year).getD []) media_name
                (media_file.map ChatFile.id))
            let found := match media_file with
              | some mf => mst.2 ++ [mf]
              | none => mst.2
            (media_by_year, found)) ([], [])

/-- The output-file update of `process_media_dependencies` for one chat:
`output_file.media_dependencies.update(media_deps)` per year with an
output file. -/
def mediaChat (vfs : VFS) (chat : Chat) : Chat :=
  { chat with
    output_files := (locateMedia vfs chat).1.foldl (fun ofs yd =>
      match dget ofs yd.1 with
      | some output_file =>
          dput ofs yd.1
            { output_file with
              media_dependencies := yd.2.foldl
                (fun d kv2 => dput d kv2.1 kv2.2) output_file.media_dependencies }
      | none => ofs) chat.output_files }

/-- `process_media_dependencies` (`src/media_locator.py`): resolve each
chat's media references per year and record them in the output files'
`media_dependencies`, registering found media in `input_files`.  (The
source's single loop over the chats is split into its two independent
effects: the per-chat output-file update — `mediaChat` — and the
sequential registration of all found media into `input_files`.) -/
def process_media_dependencies (chat_data : ChatData) (vfs : VFS) : ChatData :=
  { chat_data with
    chats := chat_data.chats.map (fun kv => (kv.1, mediaChat vfs kv.2)),
    input_files := chat_data.chats.foldl (fun inf kv =>
      (locateMedia vfs kv.2).2.foldl (fun inf mf => dput inf mf.id mf) inf)
      chat_data.input_files }

/-! ## Dependency checker (`src/output_dependency_checker.py`) -/

/-- The dependency comparison of `check_output_dependencies`:
`css_dependency` by equality, `media_dependencies` by Python dict equality
and `chat_dependencies` by Python set equality. -/
def depsDiffer (new_file old_file : OutputFile) : Bool :=
  new_file.css_dependency ≠ old_file.css_dependency ||
  !(deqBy (fun x y => x = y) new_file.media_dependencies old_file.media_dependencies) ||
  !(setEq new_file.chat_dependencies old_file.chat_dependencies)

/-- One output file through the checker: set `generate` when no old record
exists or any dependency changed (the flag is never cleared). -/
def checkedOutputFile (old_data : ChatData) (cn : ChatName) (y : Nat)
    (new_file : OutputFile) : OutputFile :=
  let old_file := match dget old_data.chats cn with
    | some oc => dget oc.output_files y
    | none => none
  match old_file with
  | none => { new_file with generate := true }
  | some old_file =>
      if depsDiffer new_file old_file then { new_file with generate := true }
      else new_file

/-- One chat through the checker. -/
def checkedChat (old_data : ChatData) (cn : ChatName) (chat : Chat) : Chat :=
  { chat with
    output_files := chat.output_files.map (fun yf =>
      (yf.1, checkedOutputFile old_data cn yf.1 yf.2)) }

/-- `check_output_dependencies` (`src/output_dependency_checker.py`). -/
def check_output_dependencies (new_data old_data : ChatData) : ChatData :=
  { new_data with
    chats := new_data.chats.map (fun kv => (kv.1, checkedChat old_data kv.1 kv.2)) }

/-! ## The pipeline (`src/main.py`, steps 3–7) -/

/-- The pipeline of `main.py` on an already scanned VFS: merge historical
files (step 3), process messages (step 4), set the run timestamp, generate
output file records (step 5), locate media (step 6) and check which output
files need regeneration (step 7).  (Step 8, HTML emission, and step 9,
state writing, do not alter the `ChatData`.) -/
def runPipeline (vfs : VFS) (cssSize cssMtime : Nat) (timestamp : String)
    (output_data : ChatData) : ChatData :=
  let vfs := merge_chat_files_into_vfs output_data vfs
  let chat_data := process_messages vfs output_data
  let chat_data := { chat_data with timestamp := timestamp }
  let chat_data := generate_output_files cssSize cssMtime chat_data
  let chat_data := process_media_dependencies chat_data vfs
  check_output_dependencies chat_data output_data

/-! ## JSON serialization (`ChatData.to_json` / `ChatData.from_json`)

`to_json` is `json.dumps(..., indent=4, sort_keys=True, default=...)` and
`from_json` starts with `json.loads`.  The composition is modelled at the
level of JSON *values*: `to_jsonValue` produces the value tree that
`json.dumps` would print (object keys sorted, as `sort_keys=True` orders
them and `json.loads` preserves textual order), and `from_jsonValue`
decodes a value tree.  Rendering to text and parsing back — performed by
the standard `json` library — is the identity on values. -/

/-- JSON values.  Numbers occurring in this program's state files are
nonnegative integers (sizes, years and the `Nat`-modelled mtimes). -/
inductive Json where
  | null
  | str (s : String)
  | num (n : Nat)
  | bool (b : Bool)
  | arr (xs : List Json)
  | obj (fields : List (String × Json))

/-- Insert into a key-sorted association list (string order = code-point
order, as in `sort_keys=True`). -/
def insertKeySorted (kv : String × Json) : List (String × Json) → List (String × Json)
  | [] => [kv]
  | kv' :: rest =>
      if pyStrLe kv.1 kv'.1 then kv :: kv' :: rest else kv' :: insertKeySorted kv rest

/-- Sort object fields by key (`json.dumps(..., sort_keys=True)`). -/
def sortKeys (l : List (String × Json)) : List (String × Json) :=
  l.foldr insertKeySorted []

/-- Insert into a sorted list of strings. -/
def insertStrSorted (s : String) : List String → List String
  | [] => [s]
  | s' :: rest => if pyStrLe s s' then s :: s' :: rest else s' :: insertStrSorted s rest

/-- Python `sorted` on a collection of strings. -/
def sortStrings (l : List String) : List String := l.foldr insertStrSorted []

/-- `id.value if id else None` (an absent id serializes as `null`). -/
def encOptId : Option ChatFileID → Json
  | some i => .str i.value
  | none => .null

/-- `ChatFile.to_dict`. -/
def ChatFile.to_dictJ (f : ChatFile) : Json :=
  .obj (sortKeys
    [("path", .str f.path), ("size", .num f.size),
     ("modification_timestamp", .num f.modification_timestamp),
     ("parent_zip", encOptId f.parent_zip), ("exists", .bool f.exists_)])

/-- `OutputFile.to_dict`: `media_dependencies` always serialized,
`chat_dependencies` only when non-empty (as a sorted list),
`css_dependency` only when present. -/
def OutputFile.to_dictJ (f : OutputFile) : Json :=
  let fields := [("year", Json.num f.year), ("generate", Json.bool f.generate),
    ("media_dependencies",
      Json.obj (sortKeys (f.media_dependencies.map (fun kv => (kv.1, encOptId kv.2)))))]
  let fields := fields ++
    (if f.chat_dependencies.isEmpty then []
     else [("chat_dependencies",
            Json.arr ((sortStrings (f.chat_dependencies.map (·.value))).map Json.str))])
  let fields := fields ++
    (match f.css_dependency with
      | some c => [("css_dependency", Json.str c.value)]
      | none => [])
  .obj (sortKeys fields)

/-- A `Message` as serialized through `default_serializer` (its `__dict__`,
with the `ChatFileID` replaced by its value). -/
def Message.to_dictJ (m : Message) : Json :=
  .obj (sortKeys
    [("timestamp", .str m.timestamp), ("sender", .str m.sender),
     ("content", .str m.content), ("year", .num m.year),
     ("input_file_id", .str m.input_file_id.value),
     ("media_name", match m.media_name with | some s => .str s | none => .null)])

/-- `encode_chat` of `ChatData.to_json`: the `chat_name` field is dropped,
`output_files` is keyed by `str(year)`. -/
def Chat.to_dictJ (c : Chat) : Json :=
  .obj (sortKeys
    [("messages", .arr (c.messages.map Message.to_dictJ)),
     ("output_files",
      .obj (sortKeys (c.output_files.map
        (fun kv => (natToStr kv.1, OutputFile.to_dictJ kv.2)))))])

/-- `ChatData.to_json` (as a JSON value, see the section header).  Note
that the `timestamp` field is not serialized. -/
def ChatData.to_jsonValue (cd : ChatData) : Json :=
  .obj (sortKeys
    [("chats", .obj (sortKeys (cd.chats.map (fun kv => (kv.1.name, kv.2.to_dictJ))))),
     ("input_files",
      .obj (sortKeys (cd.input_files.map (fun kv => (kv.1.value, kv.2.to_dictJ)))))])

/-- Python falsiness of a JSON value (`not value`). -/
def jFalsy : Json → Bool
  | .null => true
  | .bool b => !b
  | .num n => n = 0
  | .str s => s = ""
  | .arr xs => xs.isEmpty
  | .obj fs => fs.isEmpty

/-- Project a JSON object. -/
def jObj? : Json → Option (List (String × Json))
  | .obj fs => some fs
  | _ => none

/-- `ChatFile.from_dict`.  Required keys raise `KeyError` when absent;
values of unexpected types would construct fields outside the dataclass's
declared types and are modelled as decode failure. -/
def ChatFile.from_dictJ (fs : List (String × Json)) : Option ChatFile := do
  let path ← match dget fs "path" with | some (.str s) => some s | _ => none
  let size ← match dget fs "size" with | some (.num n) => some n | _ => none
  let mtime ← match dget fs "modification_timestamp" with
    | some (.num n) => some n | _ => none
  let parent_zip ← match dget fs "parent_zip" with
    | none => some none
    | some .null => some none
    | some (.str s) => some (if s = "" then none else some (ChatFileID.mk s))
    | some _ => none
  let ex ← match dget fs "exists" with
    | none => some true
    | some (.bool b) => some b
    | some _ => none
  pure { path := path, size := size, modification_timestamp := mtime,
         parent_zip := parent_zip, exists_ := ex }

/-- `OutputFile.from_dict`. -/
def OutputFile.from_dictJ (fs : List (String × Json)) : Option OutputFile := do
  let year ← match dget fs "year" with | some (.num n) => some n | _ => none
  let generate ← match dget fs "generate" with
    | none => some false
    | some (.bool b) => some b
    | some _ => none
  let media ← match dget fs "media_dependencies" with
    | none => some []
    | some (.obj mfs) => mfs.mapM (fun kv =>
        match kv.2 with
        | .str s => some (kv.1, if s = "" then none else some (ChatFileID.mk s))
        | .null => some (kv.1, (none : Option ChatFileID))
        | _ => none)
    | some _ => none
  let chatDeps ← match dget fs "chat_dependencies" with
    | none => some []
    | some (.arr xs) => do
        let vals ← xs.mapM (fun j => match j with | .str s => some s | _ => none)
        pure (vals.foldl (fun s v => sadd s (ChatFileID.mk v)) [])
    | some _ => none
  let css ← match dget fs "css_dependency" with
    | none => some none
    | some .null => some none
    | some (.str s) => some (if s = "" then none else some (ChatFileID.mk s))
    | some _ => none
  pure { year := year, generate := generate, media_dependencies := media,
         chat_dependencies := chatDeps, css_dependency := css }

/-- `ChatFile(**dict(file_data))` in the legacy `input_file` decoding
branch. -/
def chatFileFromKwargs (fs : List (String × Json)) : Option ChatFile := do
  if !(fs.all (fun kv =>
      kv.1 ∈ ["path", "size", "modification_timestamp", "parent_zip", "exists"])) then
    none
  else
    ChatFile.from_dictJ fs

/-- `decode_message` of `ChatData.from_json`.

The legacy branches are decoded as the source decodes them, with two
remarks: (a) when the branch leaves a stray key in the message dict (the
`media`, `media_file_id`, and null-`input_file` cases never remove their
trigger key) the final `Message(**msg)` raises `TypeError` in the source,
hence decode failure; (b) when the branch computes `input_file_id = None`
(string `input_file`, or a mapping with `exists=False`) the source builds a
`Message` whose `input_file_id` is `None` — a value outside the declared
`ChatFileID` type, not representable in the typed model and modelled as
decode failure.  Both situations are unreachable for `to_json` output. -/
def decode_messageJ (fs : List (String × Json)) : Option Message := do
  let allowed := ["timestamp", "sender", "content", "year", "input_file_id",
                  "media_name", "input_file"]
  if !(fs.all (fun kv => kv.1 ∈ allowed)) then none
  else
    let input_file_id ← match dget fs "input_file" with
      | some (.obj fj) => do
          let meta ← chatFileFromKwargs fj
          if meta.exists_ then some meta.id else none
      | some _ => none
      | none => match dget fs "input_file_id" with
          | some (.str s) => some (ChatFileID.mk s)
          | none => some (ChatFileID.mk "")
          | some _ => none
    let media_name ← match dget fs "media_name" with
      | some (.str s) => some (some s)
      | some .null => some none
      | none => some none
      | some _ => none
    let timestamp ← match dget fs "timestamp" with | some (.str s) => some s | _ => none
    let sender ← match dget fs "sender" with | some (.str s) => some s | _ => none
    let content ← match dget fs "content" with | some (.str s) => some s | _ => none
    let year ← match dget fs "year" with | some (.num n) => some n | _ => none
    pure { timestamp := timestamp, sender := sender, content := content,
           year := year, input_file_id := input_file_id, media_name := media_name }

/-- `decode_output_files` of `ChatData.from_json` (`if not files_dict:
return {}`, then `int(year)` on the keys). -/
def decode_output_filesJ (v : Json) : Option (List (Nat × OutputFile)) :=
  if jFalsy v then some []
  else match v with
    | .obj fs => fs.mapM (fun yf => do
        let y ← strToNat? yf.1
        let f ← jObj? yf.2 >>= OutputFile.from_dictJ
        pure (y, f))
    | _ => none

/-- `ChatData.from_json` (on a JSON value, see the section header).  Any
exception the source would raise is `none`.  Note that the result's
`timestamp` is always the `ChatData` default. -/
def ChatData.from_jsonValue (j : Json) : Option ChatData := do
  let obj ← jObj? j
  let input_files ← match dget obj "input_files" with
    | none => some []
    | some (.obj fs) => fs.mapM (fun kv => do
        let f ← jObj? kv.2 >>= ChatFile.from_dictJ
        pure (ChatFileID.mk kv.1, f))
    | some _ => none
  let chatsJ ← dget obj "chats"
  let chatsO ← jObj? chatsJ
  let chats ← chatsO.mapM (fun kv => do
    let co ← jObj? kv.2
    let msgs ← match dget co "messages" with
      | none => some []
      | some (.arr xs) => xs.mapM (fun mj => jObj? mj >>= decode_messageJ)
      | some _ => none
    let ofs ← match dget co "output_files" with
      | none => some []
      | some v => decode_output_filesJ v
    pure (ChatName.mk kv.1,
          { chat_name := ChatName.mk kv.1, messages := msgs, output_files := ofs }))
  pure { chats := chats, timestamp := "1970-01-01T00:00:00", input_files := input_files }

/-! ## State writer (`src/metadata_updater.py`)

The output directory's contents are modelled as an association list from
file name to JSON value; `os.rename` within the directory is an atomic
move (overwriting the destination), `os.remove` deletes. -/

/-- The three state file names of `update_metadata`. -/
def mainJsonName : String := "browseability-generator-chat-data.json"

/-- See `mainJsonName`. -/
def newJsonName : String := "browseability-generator-chat-data-NEW.json"

/-- See `mainJsonName`. -/
def backupJsonName : String := "browseability-generator-chat-data-BACKUP.json"

/-- A file-system operation performed by `update_metadata`. -/
inductive DiskOp where
  | write (path : String) (content : Json)
  | removeFile (path : String)
  | rename (src dst : String)

/-- The output directory contents. -/
abbrev Disk := List (String × Json)

/-- Apply one operation to the directory. -/
def applyDiskOp (d : Disk) : DiskOp → Disk
  | .write p c => dput d p c
  | .removeFile p => d.filter (fun kv => kv.1 ≠ p)
  | .rename src dst =>
      match dget d src with
      | none => d
      | some c => dput (d.filter (fun kv => kv.1 ≠ src)) dst c

/-- Apply a sequence of operations. -/
def applyDiskOps (d : Disk) (ops : List DiskOp) : Disk :=
  ops.foldl applyDiskOp d

/-- `update_metadata` (`src/metadata_updater.py`) as its sequence of file
operations: write NEW; if the main file exists, remove any BACKUP and
rename main to BACKUP; rename NEW to main.  (The source evaluates the two
`os.path.exists` tests after writing NEW; writing NEW does not change
either test, so they are evaluated here on the initial state.) -/
def update_metadata_steps (chat_data : ChatData) (d : Disk) : List DiskOp :=
  [.write newJsonName chat_data.to_jsonValue] ++
  (if dmem d mainJsonName then
    (if dmem d backupJsonName then [.removeFile backupJsonName] else []) ++
    [.rename mainJsonName backupJsonName]
   else []) ++
  [.rename newJsonName mainJsonName]

/-- `update_metadata`: the final directory state. -/
def update_metadata (chat_data : ChatData) (d : Disk) : Disk :=
  applyDiskOps d (update_metadata_steps chat_data d)

/-! ## VFS mutation sequences (for the index invariant) -/

/-- A mutating VFS operation (`vfs.py`). -/
inductive VFSOp where
  | add (f : ChatFile)
  | remove (f : ChatFile)
  | markNonexistent (id : ChatFileID)

/-- Apply one operation. -/
def applyVFSOp (v : VFS) : VFSOp → VFS
  | .add f => v.add_file f
  | .remove f => v.remove_file f
  | .markNonexistent i => v.mark_nonexistent i

/-- Apply a sequence of operations. -/
def applyVFSOps (v : VFS) (ops : List VFSOp) : VFS := ops.foldl applyVFSOp v

/-- The handle is retrievable through all three indexes. -/
def vfsIndexed (v : VFS) (f : ChatFile) : Prop :=
  v.get_by_id f.id = some f ∧ v.get_by_path f.path = some f ∧
  f ∈ v.find_by_name (basename f.path)

/-- The three-index invariant: every handle stored in the main repository
(retrievable from `files_by_id`) is stored under its own id and appears in
all three indexes. -/
def vfsInv (v : VFS) : Prop :=
  ∀ i h, v.get_by_id i = some h → i = h.id ∧ vfsIndexed v h

/-- Precondition under which an operation preserves the three-index
invariant: an added handle's path must not be bound to a handle with a
different id, and a removed handle must have its id stored (or its path
unbound). -/
def vfsOpOk (v : VFS) : VFSOp → Bool
  | .add f =>
      match v.get_by_path f.path with
      | some g => g.id = f.id
      | none => true
  | .remove f => (v.get_by_id f.id).isSome || v.get_by_path f.path = none
  | .markNonexistent _ => true

/-- Every operation of the sequence satisfies its precondition in the state
it is applied to. -/
def vfsOpsOk (v : VFS) : List VFSOp → Bool
  | [] => true
  | op :: ops => vfsOpOk v op && vfsOpsOk (applyVFSOp v op) ops

/-- The message lines of a transcript: its first line (which must match the
chat-line grammar) followed by every further matching line, in file order.
Each parsed message of `parse_chat_lines` originates from exactly one of
these, in order. -/
def messageRawLines (lines : List String) : List RawChatLine :=
  match lines with
  | [] => []
  | l0 :: rest =>
    match parse_chat_line l0 with
    | none => []
    | some r0 => r0 :: rest.filterMap parse_chat_line

/-! ## Concrete example inputs used in counterexamples and witnesses -/

/-- Two messages with distinct `(timestamp, sender, content)` triples whose
deduplication keys coincide (the fields contain `|`). -/
def exM1 : Message :=
  { timestamp := "a|b", sender := "c", content := "d", year := 2022,
    input_file_id := ⟨"x"⟩ }

/-- See `exM1`. -/
def exM2 : Message :=
  { timestamp := "a", sender := "b|c", content := "d", year := 2022,
    input_file_id := ⟨"x"⟩ }

/-- Previous-run data holding `exM1` then `exM2` in one chat. -/
def exOldS : ChatData :=
  { chats := [(⟨"S"⟩, { chat_name := ⟨"S"⟩, messages := [exM1, exM2] })] }

/-- An output file with no dependencies. -/
def exOut (g : Bool) : OutputFile := { year := 2022, generate := g }

/-- New data whose single output file already carries `generate = true`. -/
def exNewC4 : ChatData :=
  { chats := [(⟨"S"⟩,
      { chat_name := ⟨"S"⟩, output_files := [(2022, exOut true)] })] }

/-- Old data with an identical-dependency output file for the same
`(chat, year)`. -/
def exOldC4 : ChatData :=
  { chats := [(⟨"S"⟩,
      { chat_name := ⟨"S"⟩, output_files := [(2022, exOut false)] })] }

/-- Two handles sharing the path `p` with different metadata (hence
different ids), as two ZIP archives with an equal member path produce. -/
def exA : ChatFile := { path := "p", size := 1, modification_timestamp := 1 }

/-- See `exA`. -/
def exB : ChatFile := { path := "p", size := 2, modification_timestamp := 2 }

/-- A historical handle (`exists=false`), as `merge_chat_files_into_vfs`
inserts for a vanished input file. -/
def exHist : ChatFile :=
  { path := "old/_chat.txt", size := 100, modification_timestamp := 1000,
    exists_ := false }

/-- A VFS holding only the historical handle `exHist`. -/
def exVfsHist : VFS := VFS.add_file {} exHist

/-- Previous-run data whose single chat's only message came from
`exHist`. -/
def exOldHist : ChatData :=
  { chats := [(⟨"S"⟩,
      { chat_name := ⟨"S"⟩,
        messages := [{ timestamp := "12.3.2022 klo 14.08.18", sender := "S",
                       content := "Old\n", year := 2022,
                       input_file_id := exHist.id }] })],
    input_files := [(exHist.id, exHist)] }

/-- A transcript file handle at the input root. -/
def exRootChatFile : ChatFile :=
  { path := "_chat.txt", size := 50, modification_timestamp := 1001 }

/-- A transcript whose second message references a media file named like
the CSS asset (which does not exist in the input tree). -/
def exCssTxt : String :=
  "[12.3.2022 klo 14.08.18] Space Rocket: Test chat\n" ++
  "[12.3.2022 klo 14.09.09] Tester: <Attached: browseability-generator.css>\n"

/-- A VFS holding a single file with the given contents. -/
def vfsWith (f : ChatFile) (content : String) : VFS :=
  let v := VFS.add_file {} f
  { v with file_contents := dput v.file_contents f.id content }

/-- The single-file VFS for the CSS-named-media scenario. -/
def exVfsCss : VFS := vfsWith exRootChatFile exCssTxt

/-- Previous-run data with two distinct messages in one chat. -/
def exOld2 : ChatData :=
  { chats := [(⟨"S"⟩,
      { chat_name := ⟨"S"⟩,
        messages := [{ exM1 with content := "d" }, { exM1 with content := "e" }] })] }

/-- Two transcript files of the same chat in different export folders. -/
def exE1 : ChatFile :=
  { path := "e1/_chat.txt", size := 50, modification_timestamp := 1001 }

/-- See `exE1`. -/
def exE2 : ChatFile :=
  { path := "e2/_chat.txt", size := 60, modification_timestamp := 1002 }

/-- The transcript of `exE1`. -/
def exTxt1 : String := "[12.3.2022 klo 14.08.18] Space Rocket: One\n"

/-- The transcript of `exE2`. -/
def exTxt2 : String := "[12.3.2022 klo 14.09.09] Space Rocket: Two\n"

/-- A VFS holding both transcripts `exE1` and `exE2` (the first run of a
two-run chain). -/
def exVfsA5 : VFS :=
  let v := VFS.add_file (vfsWith exE1 exTxt1) exE2
  { v with file_contents := dput v.file_contents exE2.id exTxt2 }

/-- The same input tree after `exE2` vanished (the second run). -/
def exVfsB5 : VFS := vfsWith exE1 exTxt1

/-- The first run's resulting state (empty previous state). -/
def exCdA5 : ChatData := runPipeline exVfsA5 10 7 "t" {}

/-- The second run's resulting state, with `exCdA5` as previous state. -/
def exCdB5 : ChatData := runPipeline exVfsB5 10 7 "t" exCdA5

/-- The pipeline run from empty state on the single-file VFS `exVfsCss`. -/
def exRunC5 : ChatData := runPipeline exVfsCss 10 7 "t" {}

/-- The first (and only) chat entry of `exRunC5`. -/
def exKvC5 : ChatName × Chat := exRunC5.chats.getD 0 (⟨""⟩, { chat_name := ⟨""⟩ })

/-- The second pipeline run over the unchanged input tree `exVfsCss`, with
the first run's state `exRunC5` as previous state. -/
def exRun2C1 : ChatData := runPipeline exVfsCss 10 7 "t2" exRunC5

/-- The `(timestamp, sender, year)` triple of a message. -/
def msgTriple (m : Message) : String × String × Nat := (m.timestamp, m.sender, m.year)

/-- The `(timestamp, sender, year)` triple of a raw chat line. -/
def rawTriple (r : RawChatLine) : String × String × Nat := (r.timestamp, r.sender, r.year)

/-! # Theorems

First, a toolbox of lemmas about the dict/set/sort primitives, the decimal
rendering, and the id scheme. -/

theorem dget_dput_self {κ β : Type} [DecidableEq κ] (d : List (κ × β)) (k : κ) (v : β) :
    dget (dput d k v) k = some v := by
  induction d with
  | nil => simp [dput, dget]
  | cons kv rest ih =>
    by_cases h : kv.1 = k
    · simp [dput, dget, h]
    · simpa [dput, dget, h] using ih

theorem dget_dput_ne {κ β : Type} [DecidableEq κ] (d : List (κ × β)) (k k' : κ) (v : β)
    (h : k' ≠ k) : dget (dput d k v) k' = dget d k' := by
  induction d with
  | nil => simp [dput, dget, Ne.symm h]
  | cons kv rest ih =>
    by_cases hk : kv.1 = k
    · subst hk
      simp [dput, dget, Ne.symm h]
    · by_cases hk' : kv.1 = k'
      · simp [dput, dget, hk, hk', h]
      · simpa [dput, dget, hk, hk'] using ih

theorem dget_filter_key {κ β : Type} [DecidableEq κ] (d : List (κ × β)) (a k : κ) :
    dget (d.filter (fun kv => kv.1 ≠ a)) k =
      if k = a then none else dget d k := by
  induction d with
  | nil => simp [dget]
  | cons kv rest ih =>
    rw [List.filter_cons]
    by_cases ha : kv.1 = a
    · rw [if_neg (by simp [ha])]
      rw [ih]
      by_cases hk : k = a
      · simp [hk]
      · have hne : kv.1 ≠ k := by rw [ha]; exact fun hh => hk hh.symm
        simp [hk, dget, hne]
    · rw [if_pos (by simp [ha])]
      by_cases hkv : kv.1 = k
      · have hk : ¬(k = a) := by rw [← hkv]; exact ha
        simp [dget, hkv, hk]
      · simp only [dget, hkv, if_false]
        exact ih

theorem mem_dput {κ β : Type} [DecidableEq κ] (d : List (κ × β)) (k : κ) (v : β)
    (kv : κ × β) (h : kv ∈ dput d k v) :
    kv = (k, v) ∨ kv ∈ d := by
  induction d with
  | nil => simp [dput] at h; simp [h]
  | cons kv' rest ih =>
    by_cases hk : kv'.1 = k
    · simp [dput, hk] at h
      rcases h with h | h
      · left; exact h
      · right; exact List.mem_cons_of_mem _ h
    · simp only [dput, hk, if_false, List.mem_cons] at h
      rcases h with h | h
      · right
        rw [h]
        exact List.mem_cons_self _ _
      · rcases ih h with h' | h'
        · left; exact h'
        · right; exact List.mem_cons_of_mem _ h'

theorem dget_eq_some_mem {κ β : Type} [DecidableEq κ] {d : List (κ × β)} {k : κ} {v : β}
    (h : dget d k = some v) : (k, v) ∈ d := by
  induction d with
  | nil => simp [dget] at h
  | cons kv rest ih =>
    obtain ⟨k1, v1⟩ := kv
    by_cases hk : k1 = k
    · simp [dget, hk] at h
      subst hk; subst h
      exact List.mem_cons_self _ _
    · simp [dget, hk] at h
      exact List.mem_cons_of_mem _ (ih h)

theorem dmem_eq_isSome {κ β : Type} [DecidableEq κ] (d : List (κ × β)) (k : κ) :
    dmem d k = (dget d k).isSome := rfl

theorem mem_sadd {α : Type} [DecidableEq α] (s : List α) (x y : α) :
    y ∈ sadd s x ↔ y ∈ s ∨ y = x := by
  by_cases h : x ∈ s
  · simp [sadd, h]
    intro hy; rw [hy]; exact h
  · simp [sadd, h]

theorem mem_csAdd (s : ChatFileSet) (x y : ChatFile) :
    y ∈ ChatFileSet.add s x ↔ y ∈ s ∨ y = x := by
  by_cases h : x ∈ s
  · simp [ChatFileSet.add, h]
    intro hy; rw [hy]; exact h
  · simp [ChatFileSet.add, h]

/-! Decimal rendering: `strToNat?` is a left inverse of `natToStr`. -/

theorem charDigit_digitChar (d : Nat) (h : d < 10) : charDigit (digitChar d) = d := by
  interval_cases d <;> rfl

theorem digitChar_isDigit (d : Nat) : (digitChar d).isDigit = true := by
  unfold digitChar
  split <;> rfl

theorem digitsRevToNat_natToDigitsRev (fuel : Nat) :
    ∀ n : Nat, n ≤ fuel → digitsRevToNat (natToDigitsRev fuel n) = n := by
  induction fuel with
  | zero =>
    intro n h
    have : n = 0 := Nat.le_zero.mp h
    simp [this, natToDigitsRev, digitsRevToNat]
  | succ f ih =>
    intro n h
    by_cases hn : n = 0
    · simp [hn, natToDigitsRev, digitsRevToNat]
    · have hdiv : n / 10 ≤ f := by
        have : n / 10 < n := Nat.div_lt_self (Nat.pos_of_ne_zero hn) (by norm_num)
        omega
      simp only [natToDigitsRev, hn, if_false, digitsRevToNat]
      rw [charDigit_digitChar _ (Nat.mod_lt _ (by norm_num)), ih _ hdiv]
      omega

theorem natToDigitsRev_isDigit (fuel : Nat) :
    ∀ n : Nat, ∀ c ∈ natToDigitsRev fuel n, c.isDigit = true := by
  induction fuel with
  | zero => intro n c hc; simp [natToDigitsRev] at hc
  | succ f ih =>
    intro n c hc
    by_cases hn : n = 0
    · simp [natToDigitsRev, hn] at hc
    · simp only [natToDigitsRev, hn, if_false, List.mem_cons] at hc
      rcases hc with hc | hc
      · rw [hc]; exact digitChar_isDigit _
      · exact ih _ _ hc

theorem natToDigitsRev_ne_nil (n : Nat) (hn : n ≠ 0) : natToDigitsRev n n ≠ [] := by
  cases n with
  | zero => exact absurd rfl hn
  | succ m => simp [natToDigitsRev]

theorem strToNat_natToStr (n : Nat) : strToNat? (natToStr n) = some n := by
  by_cases hn : n = 0
  · subst hn; decide
  · have hne : natToDigitsRev n n ≠ [] := natToDigitsRev_ne_nil n hn
    have hdig : ∀ c ∈ (natToDigitsRev n n).reverse, c.isDigit = true := by
      intro c hc
      exact natToDigitsRev_isDigit n n c (List.mem_reverse.mp hc)
    simp only [natToStr, hn, if_false, strToNat?, String.data]
    rw [if_pos]
    · rw [List.reverse_reverse, digitsRevToNat_natToDigitsRev n n le_rfl]
    · constructor
      · simpa using hne
      · exact List.all_eq_true.mpr (fun c hc => hdig c hc)

theorem natToStr_inj {m n : Nat} (h : natToStr m = natToStr n) : m = n := by
  have := strToNat_natToStr m
  rw [h, strToNat_natToStr n] at this
  exact (Option.some.injEq _ _).mp this |>.symm

theorem isDigit_ne_colon {c : Char} (h : c.isDigit = true) : c ≠ ':' := by
  intro hc
  rw [hc] at h
  simp [Char.isDigit] at h

theorem natToStr_no_colon (n : Nat) : ∀ c ∈ (natToStr n).data, c ≠ ':' := by
  intro c hc
  by_cases hn : n = 0
  · subst hn
    simp [natToStr] at hc
    rw [hc]; decide
  · simp only [natToStr, hn, if_false, String.data] at hc
    exact isDigit_ne_colon
      (natToDigitsRev_isDigit n n c (List.mem_reverse.mp hc))

theorem colon_split {a₁ b₁ : List Char} :
    ∀ {a₂ b₂ : List Char}, a₁ ++ ':' :: b₁ = a₂ ++ ':' :: b₂ →
    (∀ c ∈ a₁, c ≠ ':') → (∀ c ∈ a₂, c ≠ ':') → a₁ = a₂ ∧ b₁ = b₂ := by
  induction a₁ with
  | nil =>
    intro a₂ b₂ h h₁ h₂
    cases a₂ with
    | nil => simpa using h
    | cons c cs =>
      simp at h
      exact absurd rfl (h.1 ▸ h₂ c (List.mem_cons_self _ _))
  | cons c cs ih =>
    intro a₂ b₂ h h₁ h₂
    cases a₂ with
    | nil =>
      simp at h
      exact absurd rfl (h.1 ▸ h₁ c (List.mem_cons_self _ _))
    | cons c' cs' =>
      simp at h
      obtain ⟨hc, hrest⟩ := h
      obtain ⟨ha, hb⟩ := ih hrest
        (fun x hx => h₁ x (List.mem_cons_of_mem _ hx))
        (fun x hx => h₂ x (List.mem_cons_of_mem _ hx))
      exact ⟨by rw [hc, ha], hb⟩

theorem create_inj {m₁ s₁ : Nat} {p₁ : String} {m₂ s₂ : Nat} {p₂ : String}
    (h : ChatFileID.create m₁ s₁ p₁ = ChatFileID.create m₂ s₂ p₂) :
    m₁ = m₂ ∧ s₁ = s₂ ∧ p₁ = p₂ := by
  have hv : (natToStr m₁).data ++ ':' :: ((natToStr s₁).data ++ ':' :: p₁.data) =
      (natToStr m₂).data ++ ':' :: ((natToStr s₂).data ++ ':' :: p₂.data) := by
    have := congrArg (fun i : ChatFileID => i.value.data) h
    simpa [ChatFileID.create, String.data_append] using this
  obtain ⟨hm, hrest⟩ := colon_split hv (natToStr_no_colon m₁) (natToStr_no_colon m₂)
  obtain ⟨hs, hp⟩ := colon_split hrest (natToStr_no_colon s₁) (natToStr_no_colon s₂)
  refine ⟨natToStr_inj (String.ext hm), natToStr_inj (String.ext hs), String.ext hp⟩

/-- Equal ids mean equal `(mtime, size, path)` metadata. -/
theorem id_inj {f g : ChatFile} (h : f.id = g.id) :
    f.modification_timestamp = g.modification_timestamp ∧
    f.size = g.size ∧ f.path = g.path :=
  create_inj h

theorem dget_map_keys {κ β γ : Type} [DecidableEq κ] (g : κ → β → γ)
    (l : List (κ × β)) (k : κ) :
    dget (l.map (fun kv => (kv.1, g kv.1 kv.2))) k = (dget l k).map (g k) := by
  induction l with
  | nil => simp [dget]
  | cons kv rest ih =>
    by_cases hk : kv.1 = k
    · subst hk; simp [dget]
    · simp [dget, hk, ih]

/-! ## C10: the deduplication key is coarser than the field triple -/

/-- C10: `process_messages` deduplicates by the single string
`timestamp + "|" + sender + "|" + content`; the concrete messages `exM1`
and `exM2` have distinct `(timestamp, sender, content)` triples but equal
keys, and the later one is silently discarded by `process_messages`. -/
theorem c10_dedup_key_collision :
    msgHash exM1 = msgHash exM2 ∧
    ¬(exM1.timestamp = exM2.timestamp ∧ exM1.sender = exM2.sender ∧
      exM1.content = exM2.content) ∧
    (process_messages {} exOldS).chats =
      [(⟨"S"⟩, { chat_name := ⟨"S"⟩, messages := [exM1] })] := by
  refine ⟨rfl, by decide, ?_⟩
  decide

/-! ## C4: the dependency checker's postcondition -/

/-- C4 counterexample: `check_output_dependencies` never clears an incoming
`generate = true` flag.  With `exNewC4` (flag already true) against
`exOldC4` (old record present, all dependencies equal) the flag stays true
although no dependency differs — refuting "the flag is true iff at least
one of the dependencies differs". -/
theorem c4_checker_counterexample :
    depsDiffer (exOut true) (exOut false) = false ∧
    (check_output_dependencies exNewC4 exOldC4).chats =
      [(⟨"S"⟩, { chat_name := ⟨"S"⟩, output_files := [(2022, exOut true)] })] := by
  constructor
  · decide
  · decide

/-- C4 (amended): after `check_output_dependencies new_data old_data`,
every `(chat, year)` output file's `generate` flag equals: its value on
entry, OR'ed with `true` when the old data has no output file for that
`(chat, year)` and otherwise with whether any of `css_dependency`,
`media_dependencies` (full mapping equality) or `chat_dependencies` (set
equality) differs; all other fields are unchanged. -/
theorem c4_checker_flag (new_data old_data : ChatData) (cn : ChatName)
    (chat : Chat) (y : Nat) (f : OutputFile)
    (hc : dget (check_output_dependencies new_data old_data).chats cn = some chat)
    (hf : dget chat.output_files y = some f) :
    ∃ chat₀ f₀, dget new_data.chats cn = some chat₀ ∧
      dget chat₀.output_files y = some f₀ ∧
      f = { f₀ with generate := f.generate } ∧
      f.generate = (f₀.generate ||
        (match dget old_data.chats cn with
         | none => true
         | some oc =>
           match dget oc.output_files y with
           | none => true
           | some old_file => depsDiffer f₀ old_file)) := by
  simp only [check_output_dependencies] at hc
  rw [dget_map_keys (checkedChat old_data)] at hc
  obtain ⟨chat₀, h₀, hchat⟩ := Option.map_eq_some'.mp hc
  subst hchat
  simp only [checkedChat] at hf
  rw [dget_map_keys (checkedOutputFile old_data cn)] at hf
  obtain ⟨f₀, hf₀, hff⟩ := Option.map_eq_some'.mp hf
  subst hff
  refine ⟨chat₀, f₀, h₀, hf₀, ?_, ?_⟩ <;>
  · simp only [checkedOutputFile]
    cases hold : dget old_data.chats cn with
    | none => simp [hold]
    | some oc =>
      cases holdf : dget oc.output_files y with
      | none => simp [hold, holdf]
      | some old_file =>
        by_cases hd : depsDiffer f₀ old_file
        · simp [hold, holdf, hd]
        · simp [hold, holdf, hd]

/-! ## C7: the three VFS indexes -/

theorem add_file_names (v : VFS) (f : ChatFile) :
    (v.add_file f).files_by_name =
      dput v.files_by_name (basename f.path)
        (ChatFileSet.add ((dget v.files_by_name (basename f.path)).getD []) f) := by
  unfold VFS.add_file
  cases hd : dget v.files_by_name (basename f.path) with
  | none => simp [dmem, hd]
  | some s => simp [dmem, hd]

theorem mem_foldl_csAdd_init (l : List ChatFile) (g : ChatFile → ChatFile)
    (init : ChatFileSet) (x : ChatFile) (hx : x ∈ init) :
    x ∈ l.foldl (fun acc f => ChatFileSet.add acc (g f)) init := by
  induction l generalizing init with
  | nil => exact hx
  | cons a rest ih =>
    exact ih _ ((mem_csAdd init (g a) x).mpr (Or.inl hx))

theorem mem_foldl_csAdd (l : List ChatFile) (g : ChatFile → ChatFile)
    (init : ChatFileSet) (x : ChatFile) (hx : x ∈ l) :
    g x ∈ l.foldl (fun acc f => ChatFileSet.add acc (g f)) init := by
  induction l generalizing init with
  | nil => simp at hx
  | cons a rest ih =>
    rcases List.mem_cons.mp hx with h | h
    · subst h
      exact mem_foldl_csAdd_init rest g _ (g x)
        ((mem_csAdd init (g x) (g x)).mpr (Or.inr rfl))
    · exact ih _ h

theorem vfsInv_add (v : VFS) (f : ChatFile) (hInv : vfsInv v)
    (hok : ∀ g, v.get_by_path f.path = some g → g.id = f.id) :
    vfsInv (v.add_file f) := by
  intro i h hgi
  have hids : (v.add_file f).files_by_id = dput v.files_by_id f.id f := rfl
  have hpaths : (v.add_file f).files_by_path = dput v.files_by_path f.path f := rfl
  by_cases hi : i = f.id
  · subst hi
    rw [VFS.get_by_id, hids, dget_dput_self] at hgi
    obtain rfl : f = h := by injection hgi
    refine ⟨rfl, ?_, ?_, ?_⟩
    · rw [VFS.get_by_id, hids, dget_dput_self]
    · rw [VFS.get_by_path, hpaths, dget_dput_self]
    · rw [VFS.find_by_name, add_file_names, dget_dput_self]
      exact (mem_csAdd _ f f).mpr (Or.inr rfl)
  · rw [VFS.get_by_id, hids, dget_dput_ne _ _ _ _ hi] at hgi
    obtain ⟨hid, hidx⟩ := hInv i h hgi
    have hh : h.id ≠ f.id := hid ▸ hi
    have hp : h.path ≠ f.path := by
      intro heq
      exact hh (hok h (heq ▸ hidx.2.1))
    refine ⟨hid, ?_, ?_, ?_⟩
    · rw [VFS.get_by_id, hids, dget_dput_ne _ _ _ _ hh]
      exact hidx.1
    · rw [VFS.get_by_path, hpaths, dget_dput_ne _ _ _ _ hp]
      exact hidx.2.1
    · rw [VFS.find_by_name, add_file_names]
      by_cases hbb : basename h.path = basename f.path
      · rw [hbb, dget_dput_self]
        refine (mem_csAdd _ f h).mpr (Or.inl ?_)
        have := hidx.2.2
        rw [VFS.find_by_name, hbb] at this
        exact this
      · rw [dget_dput_ne _ _ _ _ hbb]
        exact hidx.2.2

theorem vfsInv_remove (v : VFS) (x : ChatFile) (hInv : vfsInv v)
    (hok : (v.get_by_id x.id).isSome = true ∨ v.get_by_path x.path = none) :
    vfsInv (v.remove_file x) := by
  intro i h hgi
  have hids : (v.remove_file x).files_by_id =
      v.files_by_id.filter (fun kv => kv.1 ≠ x.id) := rfl
  have hpaths : (v.remove_file x).files_by_path =
      v.files_by_path.filter (fun kv => kv.1 ≠ x.path) := rfl
  rw [VFS.get_by_id, hids, dget_filter_key] at hgi
  by_cases hi : i = x.id
  · simp [hi] at hgi
  rw [if_neg hi] at hgi
  obtain ⟨hid, hidx⟩ := hInv i h hgi
  have hh : h.id ≠ x.id := hid ▸ hi
  have hhx : h ≠ x := fun heq => hh (heq ▸ rfl)
  have hp : h.path ≠ x.path := by
    rcases hok with hsome | hnone
    · obtain ⟨A, hA⟩ := Option.isSome_iff_exists.mp hsome
      obtain ⟨hidA, hidxA⟩ := hInv x.id A hA
      have hAx : A.path = x.path := (id_inj hidA.symm).2.2
      intro heq
      have h1 : v.get_by_path h.path = some h := hidx.2.1
      have h2 : v.get_by_path A.path = some A := hidxA.2.1
      rw [heq, ← hAx] at h1
      rw [h1] at h2
      obtain rfl : h = A := by injection h2
      exact hh hidA.symm
    · intro heq
      have := hidx.2.1
      rw [heq, hnone] at this
      exact Option.noConfusion this
  refine ⟨hid, ?_, ?_, ?_⟩
  · rw [VFS.get_by_id, hids, dget_filter_key, if_neg hh]
    rw [← hid]
    exact hgi
  · rw [VFS.get_by_path, hpaths, dget_filter_key, if_neg hp]
    exact hidx.2.1
  · show h ∈ (dget (v.remove_file x).files_by_name (basename h.path)).getD []
    have hnames : (v.remove_file x).files_by_name =
        match dget v.files_by_name (basename x.path) with
        | some s =>
            let s' := ChatFileSet.discard s x
            if s'.isEmpty then
              v.files_by_name.filter (fun kv => kv.1 ≠ basename x.path)
            else dput v.files_by_name (basename x.path) s'
        | none => v.files_by_name := rfl
    have hmem := hidx.2.2
    rw [VFS.find_by_name] at hmem
    cases hnb : dget v.files_by_name (basename x.path) with
    | none =>
      rw [hnames, hnb]
      exact hmem
    | some s =>
      by_cases hbb : basename h.path = basename x.path
      · have hhs : h ∈ s := by
          rw [hbb, hnb] at hmem
          exact hmem
        have hs' : h ∈ ChatFileSet.discard s x := by
          simp [ChatFileSet.discard, List.mem_filter, hhs, hhx]
        have hne : (ChatFileSet.discard s x).isEmpty = false := by
          cases he : (ChatFileSet.discard s x) with
          | nil => rw [he] at hs'; simp at hs'
          | cons a l => simp [he, List.isEmpty]
        rw [hnames, hnb]
        simp only [hne, Bool.false_eq_true, if_false]
        rw [hbb, dget_dput_self]
        exact hs'
      · rw [hnames, hnb]
        by_cases he : (ChatFileSet.discard s x).isEmpty
        · simp only [he, if_true]
          rw [dget_filter_key, if_neg hbb]
          exact hmem
        · simp only [he, Bool.false_eq_true, if_false]
          rw [dget_dput_ne _ _ _ _ hbb]
          exact hmem

theorem vfsInv_mark (v : VFS) (fid : ChatFileID) (hInv : vfsInv v) :
    vfsInv (v.mark_nonexistent fid) := by
  cases hget : v.get_by_id fid with
  | none =>
    have hv : v.mark_nonexistent fid = v := by
      unfold VFS.mark_nonexistent
      rw [hget]
    rw [hv]
    exact hInv
  | some old =>
    obtain ⟨hfid, hidxOld⟩ := hInv fid old hget
    have hb : old ∈ (dget v.files_by_name (basename old.path)).getD [] := hidxOld.2.2
    have hbs : dmem v.files_by_name (basename old.path) = true := by
      rw [dmem]
      cases hd : dget v.files_by_name (basename old.path) with
      | none => rw [hd] at hb; simp at hb
      | some s => rfl
    have hNid : (nonexistentCopy old).id = fid := by
      rw [show (nonexistentCopy old).id = old.id from rfl]
      exact hfid.symm
    have hNpath : (nonexistentCopy old).path = old.path := rfl
    have hv' : v.mark_nonexistent fid =
        { v with
          files_by_id := dput v.files_by_id fid (nonexistentCopy old),
          files_by_path := dput v.files_by_path old.path (nonexistentCopy old),
          files_by_name := dput v.files_by_name (basename old.path)
            (((dget v.files_by_name (basename old.path)).getD []).foldl
              (fun acc f =>
                ChatFileSet.add acc (if f.id = fid then nonexistentCopy old else f))
              []) } := by
      unfold VFS.mark_nonexistent
      rw [hget]
      simp only [nonexistentCopy, hbs, if_true]
    intro i h hgi
    rw [hv'] at hgi
    have hgi' : dget (dput v.files_by_id fid (nonexistentCopy old)) i = some h := hgi
    by_cases hi : i = fid
    · rw [hi, dget_dput_self] at hgi'
      have hN : h = nonexistentCopy old := (Option.some.inj hgi').symm
      refine ⟨?_, ?_, ?_, ?_⟩
      · rw [hN, hNid, hi]
      · show (v.mark_nonexistent fid).get_by_id h.id = some h
        rw [hv', hN, hNid]
        show dget (dput v.files_by_id fid (nonexistentCopy old)) fid = _
        rw [dget_dput_self]
      · show (v.mark_nonexistent fid).get_by_path h.path = some h
        rw [hv', hN, hNpath]
        show dget (dput v.files_by_path old.path (nonexistentCopy old)) old.path = _
        rw [dget_dput_self]
      · show h ∈ (v.mark_nonexistent fid).find_by_name (basename h.path)
        rw [hv', hN, hNpath]
        show nonexistentCopy old ∈
          (dget (dput v.files_by_name (basename old.path) _)
            (basename old.path)).getD []
        rw [dget_dput_self]
        have hmem : (if old.id = fid then nonexistentCopy old else old) ∈
            ((dget v.files_by_name (basename old.path)).getD []).foldl
              (fun acc f =>
                ChatFileSet.add acc (if f.id = fid then nonexistentCopy old else f))
              [] := mem_foldl_csAdd _ _ [] old hb
        simpa [hfid.symm] using hmem
    · rw [dget_dput_ne _ _ _ _ hi] at hgi'
      obtain ⟨hid, hidx⟩ := hInv i h hgi'
      have hh : h.id ≠ fid := hid ▸ hi
      have hp : h.path ≠ old.path := by
        intro heq
        have h1 : v.get_by_path h.path = some h := hidx.2.1
        have h2 : v.get_by_path old.path = some old := hidxOld.2.1
        rw [heq] at h1
        rw [h1] at h2
        obtain rfl : h = old := by injection h2
        exact hh hfid.symm
      refine ⟨hid, ?_, ?_, ?_⟩
      · show (v.mark_nonexistent fid).get_by_id h.id = some h
        rw [hv']
        show dget (dput v.files_by_id fid (nonexistentCopy old)) h.id = _
        rw [dget_dput_ne _ _ _ _ hh]
        exact hidx.1
      · show (v.mark_nonexistent fid).get_by_path h.path = some h
        rw [hv']
        show dget (dput v.files_by_path old.path (nonexistentCopy old)) h.path = _
        rw [dget_dput_ne _ _ _ _ hp]
        exact hidx.2.1
      · show h ∈ (v.mark_nonexistent fid).find_by_name (basename h.path)
        rw [hv']
        show h ∈ (dget (dput v.files_by_name (basename old.path) _)
          (basename h.path)).getD []
        by_cases hbb : basename h.path = basename old.path
        · rw [hbb, dget_dput_self]
          have hhs : h ∈ (dget v.files_by_name (basename old.path)).getD [] := by
            have := hidx.2.2
            rw [VFS.find_by_name, hbb] at this
            exact this
          have hmem : (if h.id = fid then nonexistentCopy old else h) ∈
              ((dget v.files_by_name (basename old.path)).getD []).foldl
                (fun acc f =>
                  ChatFileSet.add acc (if f.id = fid then nonexistentCopy old else f))
                [] := mem_foldl_csAdd _ _ [] h hhs
          simpa [hh] using hmem
        · rw [dget_dput_ne _ _ _ _ hbb]
          exact hidx.2.2

theorem vfsInv_empty : vfsInv {} := by
  intro i h hgi
  simp [VFS.get_by_id, dget] at hgi

theorem vfsInv_applyVFSOps (ops : List VFSOp) :
    ∀ v : VFS, vfsInv v → vfsOpsOk v ops = true → vfsInv (applyVFSOps v ops) := by
  induction ops with
  | nil => intro v hInv _; exact hInv
  | cons op rest ih =>
    intro v hInv hok
    rw [vfsOpsOk, Bool.and_eq_true] at hok
    refine ih _ ?_ hok.2
    cases op with
    | add f =>
      refine vfsInv_add v f hInv ?_
      intro g hg
      have := hok.1
      rw [vfsOpOk, hg] at this
      exact of_decide_eq_true this
    | remove f =>
      refine vfsInv_remove v f hInv ?_
      have := hok.1
      rw [vfsOpOk, Bool.or_eq_true] at this
      rcases this with h | h
      · exact Or.inl h
      · exact Or.inr (of_decide_eq_true h)
    | markNonexistent i => exact vfsInv_mark v i hInv

theorem remove_file_removes (v : VFS) (h : ChatFile) (hInv : vfsInv v)
    (hstored : v.get_by_id h.id = some h) :
    (v.remove_file h).get_by_id h.id = none ∧
    (v.remove_file h).get_by_path h.path = none ∧
    h ∉ (v.remove_file h).find_by_name (basename h.path) := by
  obtain ⟨-, hidx⟩ := hInv h.id h hstored
  refine ⟨?_, ?_, ?_⟩
  · show dget (v.files_by_id.filter (fun kv => kv.1 ≠ h.id)) h.id = none
    rw [dget_filter_key, if_pos rfl]
  · show dget (v.files_by_path.filter (fun kv => kv.1 ≠ h.path)) h.path = none
    rw [dget_filter_key, if_pos rfl]
  · have hmem := hidx.2.2
    rw [VFS.find_by_name] at hmem
    have hbs : (dget v.files_by_name (basename h.path)).isSome = true := by
      cases hd : dget v.files_by_name (basename h.path) with
      | none => rw [hd] at hmem; simp at hmem
      | some s => rfl
    obtain ⟨s, hs⟩ := Option.isSome_iff_exists.mp hbs
    have hnames : (v.remove_file h).files_by_name =
        (if (ChatFileSet.discard s h).isEmpty then
          v.files_by_name.filter (fun kv => kv.1 ≠ basename h.path)
        else dput v.files_by_name (basename h.path) (ChatFileSet.discard s h)) := by
      show (match dget v.files_by_name (basename h.path) with
        | some s =>
            let s' := ChatFileSet.discard s h
            if s'.isEmpty then
              v.files_by_name.filter
                (fun kv : String × ChatFileSet => kv.1 ≠ basename h.path)
            else dput v.files_by_name (basename h.path) s'
        | none => v.files_by_name) = _
      rw [hs]
    have hnotin : h ∉ ChatFileSet.discard s h := by
      simp [ChatFileSet.discard, List.mem_filter]
    rw [VFS.find_by_name, hnames]
    by_cases he : (ChatFileSet.discard s h).isEmpty
    · simp only [he, if_true]
      rw [dget_filter_key, if_pos rfl]
      simp
    · simp only [he, Bool.false_eq_true, if_false]
      rw [dget_dput_self]
      exact hnotin

/-- C7 counterexample: after the reachable sequence `[add exA, add exB]`
(two handles with different ids sharing a path, as two ZIP archives with an
equal member path produce) the handle `exA` is still stored and retrievable
by its id, but no longer retrievable by its path — so the claimed
invariant does not hold for every reachable state. -/
theorem c7_index_counterexample :
    (applyVFSOps {} [VFSOp.add exA, VFSOp.add exB]).get_by_id exA.id = some exA ∧
    (applyVFSOps {} [VFSOp.add exA, VFSOp.add exB]).get_by_path exA.path ≠ some exA ∧
    vfsOpsOk {} [VFSOp.add exA, VFSOp.add exB] = false := by
  refine ⟨by decide, by decide, by decide⟩

/-- C7 (amended): for everyVFS state reachable from the empty VFS by a
sequence of `add_file`, `remove_file` and `mark_nonexistent` calls in which
every `add_file` adds a handle whose path is not bound to a handle of a
different id and every `remove_file` removes a handle whose id is stored
(or whose path is unbound) — `vfsOpsOk` — every stored handle appears in
all three indexes, and `remove_file` on a stored handle removes it from all
three.  (The unrestricted claim fails when two handles with different ids
share a path: see the counterexample.) -/
theorem c7_vfs_indexes (ops : List VFSOp) (f : ChatFile)
    (hok : vfsOpsOk {} ops = true) :
    vfsInv (applyVFSOps {} ops) ∧
    ((applyVFSOps {} ops).get_by_id f.id = some f →
      ((applyVFSOps {} ops).remove_file f).get_by_id f.id = none ∧
      ((applyVFSOps {} ops).remove_file f).get_by_path f.path = none ∧
      f ∉ ((applyVFSOps {} ops).remove_file f).find_by_name (basename f.path)) := by
  have hInv := vfsInv_applyVFSOps ops {} vfsInv_empty hok
  exact ⟨hInv, fun hstored => remove_file_removes _ f hInv hstored⟩

/-- Witness for `c7_vfs_indexes` at a concrete input. -/
theorem c7_vfs_indexes_witness :
    vfsInv (applyVFSOps {} [VFSOp.add exA]) ∧
    ((applyVFSOps {} [VFSOp.add exA]).get_by_id exA.id = some exA →
      ((applyVFSOps {} [VFSOp.add exA]).remove_file exA).get_by_id exA.id = none ∧
      ((applyVFSOps {} [VFSOp.add exA]).remove_file exA).get_by_path exA.path = none ∧
      exA ∉ ((applyVFSOps {} [VFSOp.add exA]).remove_file exA).find_by_name
        (basename exA.path)) :=
  c7_vfs_indexes [VFSOp.add exA] exA (by decide)

/-! ## C9: the atomic state swap -/

/-- C9: `update_metadata` performs the swap in the claimed order (write
NEW; if a main file exists, remove any BACKUP and rename main to BACKUP;
rename NEW to main), and after any prefix of these steps the previous
generation's content is still on disk as the main or the BACKUP file, while
the main file only ever holds the previous content or the complete new
serialization. -/
theorem applyDiskOps_nil (d : Disk) : applyDiskOps d [] = d := rfl

theorem c9_update_metadata_safe (cd : ChatData) (d : Disk) (old : Json) (k : Nat)
    (hmain : dget d mainJsonName = some old) :
    update_metadata_steps cd d =
      [DiskOp.write newJsonName cd.to_jsonValue] ++
      ((if dmem d backupJsonName then [DiskOp.removeFile backupJsonName] else []) ++
       [DiskOp.rename mainJsonName backupJsonName]) ++
      [DiskOp.rename newJsonName mainJsonName] ∧
    ((dget (applyDiskOps d ((update_metadata_steps cd d).take k)) mainJsonName = some old ∨
      dget (applyDiskOps d ((update_metadata_steps cd d).take k)) backupJsonName = some old) ∧
     ∀ x, dget (applyDiskOps d ((update_metadata_steps cd d).take k)) mainJsonName = some x →
       x = old ∨ x = cd.to_jsonValue) := by
  have hmm : dmem d mainJsonName = true := by simp [dmem, hmain]
  have hmn : mainJsonName ≠ newJsonName := by decide
  have hmb : mainJsonName ≠ backupJsonName := by decide
  have hnb : newJsonName ≠ backupJsonName := by decide
  have hsteps : update_metadata_steps cd d =
      [DiskOp.write newJsonName cd.to_jsonValue] ++
      ((if dmem d backupJsonName then [DiskOp.removeFile backupJsonName] else []) ++
       [DiskOp.rename mainJsonName backupJsonName]) ++
      [DiskOp.rename newJsonName mainJsonName] := by
    simp [update_metadata_steps, hmm]
  refine ⟨hsteps, ?_⟩
  rw [hsteps]
  have hd1main : dget (dput d newJsonName cd.to_jsonValue) mainJsonName = some old := by
    rw [dget_dput_ne _ _ _ _ hmn]; exact hmain
  have hd1new : dget (dput d newJsonName cd.to_jsonValue) newJsonName =
      some cd.to_jsonValue := dget_dput_self _ _ _
  by_cases hb : dmem d backupJsonName = true
  · -- an old BACKUP exists and is removed first
    rw [if_pos hb]
    have hlist : [DiskOp.write newJsonName cd.to_jsonValue] ++
        ([DiskOp.removeFile backupJsonName] ++
         [DiskOp.rename mainJsonName backupJsonName]) ++
        [DiskOp.rename newJsonName mainJsonName] =
        [DiskOp.write newJsonName cd.to_jsonValue,
         DiskOp.removeFile backupJsonName,
         DiskOp.rename mainJsonName backupJsonName,
         DiskOp.rename newJsonName mainJsonName] := rfl
    rw [hlist]
    set D1 : Disk := dput d newJsonName cd.to_jsonValue with hD1
    set D2 : Disk := D1.filter (fun kv => kv.1 ≠ backupJsonName) with hD2
    have hd2main : dget D2 mainJsonName = some old := by
      rw [hD2, dget_filter_key, if_neg hmb]; exact hd1main
    have hd2new : dget D2 newJsonName = some cd.to_jsonValue := by
      rw [hD2, dget_filter_key, if_neg hnb]; exact hd1new
    set D3 : Disk :=
      dput (D2.filter (fun kv => kv.1 ≠ mainJsonName)) backupJsonName old with hD3
    have hd3backup : dget D3 backupJsonName = some old := dget_dput_self _ _ _
    have hd3main : dget D3 mainJsonName = none := by
      rw [hD3, dget_dput_ne _ _ _ _ hmb, dget_filter_key, if_pos rfl]
    have hd3new : dget D3 newJsonName = some cd.to_jsonValue := by
      rw [hD3, dget_dput_ne _ _ _ _ hnb, dget_filter_key, if_neg hmn.symm]
      exact hd2new
    set D4 : Disk :=
      dput (D3.filter (fun kv => kv.1 ≠ newJsonName)) mainJsonName cd.to_jsonValue
      with hD4
    have hd4main : dget D4 mainJsonName = some cd.to_jsonValue := dget_dput_self _ _ _
    have hd4backup : dget D4 backupJsonName = some old := by
      rw [hD4, dget_dput_ne _ _ _ _ hmb.symm, dget_filter_key, if_neg hnb.symm]
      exact hd3backup
    have e1 : applyDiskOps d [DiskOp.write newJsonName cd.to_jsonValue] = D1 := rfl
    have e2 : applyDiskOps d
        [DiskOp.write newJsonName cd.to_jsonValue, DiskOp.removeFile backupJsonName] =
        D2 := rfl
    have e3 : applyDiskOps d
        [DiskOp.write newJsonName cd.to_jsonValue, DiskOp.removeFile backupJsonName,
         DiskOp.rename mainJsonName backupJsonName] = D3 := by
      show applyDiskOp (applyDiskOps d
        [DiskOp.write newJsonName cd.to_jsonValue, DiskOp.removeFile backupJsonName])
        (DiskOp.rename mainJsonName backupJsonName) = D3
      rw [e2]
      simp [applyDiskOp, hd2main, hD3]
    have e4 : applyDiskOps d
        [DiskOp.write newJsonName cd.to_jsonValue, DiskOp.removeFile backupJsonName,
         DiskOp.rename mainJsonName backupJsonName,
         DiskOp.rename newJsonName mainJsonName] = D4 := by
      show applyDiskOp (applyDiskOps d
        [DiskOp.write newJsonName cd.to_jsonValue, DiskOp.removeFile backupJsonName,
         DiskOp.rename mainJsonName backupJsonName])
        (DiskOp.rename newJsonName mainJsonName) = D4
      rw [e3]
      simp [applyDiskOp, hd3new, hD4]
    match k with
    | 0 =>
      simp only [List.take_zero, applyDiskOps_nil]
      refine ⟨Or.inl hmain, fun x hx => ?_⟩
      rw [hmain] at hx
      exact Or.inl (Option.some.inj hx).symm
    | 1 =>
      simp only [List.take_succ_cons, List.take_zero]
      rw [e1]
      refine ⟨Or.inl hd1main, fun x hx => ?_⟩
      rw [hd1main] at hx
      exact Or.inl (Option.some.inj hx).symm
    | 2 =>
      simp only [List.take_succ_cons, List.take_zero]
      rw [e2]
      refine ⟨Or.inl hd2main, fun x hx => ?_⟩
      rw [hd2main] at hx
      exact Or.inl (Option.some.inj hx).symm
    | 3 =>
      simp only [List.take_succ_cons, List.take_zero]
      rw [e3]
      refine ⟨Or.inr hd3backup, fun x hx => ?_⟩
      rw [hd3main] at hx
      exact absurd hx (by simp)
    | (n + 4) =>
      simp only [List.take_succ_cons, List.take_nil]
      rw [e4]
      refine ⟨Or.inr hd4backup, fun x hx => ?_⟩
      rw [hd4main] at hx
      exact Or.inr (Option.some.inj hx).symm
  · -- no BACKUP to remove
    rw [if_neg hb]
    have hlist : [DiskOp.write newJsonName cd.to_jsonValue] ++
        (([] : List DiskOp) ++ [DiskOp.rename mainJsonName backupJsonName]) ++
        [DiskOp.rename newJsonName mainJsonName] =
        [DiskOp.write newJsonName cd.to_jsonValue,
         DiskOp.rename mainJsonName backupJsonName,
         DiskOp.rename newJsonName mainJsonName] := rfl
    rw [hlist]
    set D1 : Disk := dput d newJsonName cd.to_jsonValue with hD1
    set D3 : Disk :=
      dput (D1.filter (fun kv => kv.1 ≠ mainJsonName)) backupJsonName old with hD3
    have hd3backup : dget D3 backupJsonName = some old := dget_dput_self _ _ _
    have hd3main : dget D3 mainJsonName = none := by
      rw [hD3, dget_dput_ne _ _ _ _ hmb, dget_filter_key, if_pos rfl]
    have hd3new : dget D3 newJsonName = some cd.to_jsonValue := by
      rw [hD3, dget_dput_ne _ _ _ _ hnb, dget_filter_key, if_neg hmn.symm]
      exact hd1new
    set D4 : Disk :=
      dput (D3.filter (fun kv => kv.1 ≠ newJsonName)) mainJsonName cd.to_jsonValue
      with hD4
    have hd4main : dget D4 mainJsonName = some cd.to_jsonValue := dget_dput_self _ _ _
    have hd4backup : dget D4 backupJsonName = some old := by
      rw [hD4, dget_dput_ne _ _ _ _ hmb.symm, dget_filter_key, if_neg hnb.symm]
      exact hd3backup
    have e1 : applyDiskOps d [DiskOp.write newJsonName cd.to_jsonValue] = D1 := rfl
    have e3 : applyDiskOps d
        [DiskOp.write newJsonName cd.to_jsonValue,
         DiskOp.rename mainJsonName backupJsonName] = D3 := by
      show applyDiskOp (applyDiskOps d [DiskOp.write newJsonName cd.to_jsonValue])
        (DiskOp.rename mainJsonName backupJsonName) = D3
      rw [e1]
      simp [applyDiskOp, hd1main, hD3]
    have e4 : applyDiskOps d
        [DiskOp.write newJsonName cd.to_jsonValue,
         DiskOp.rename mainJsonName backupJsonName,
         DiskOp.rename newJsonName mainJsonName] = D4 := by
      show applyDiskOp (applyDiskOps d
        [DiskOp.write newJsonName cd.to_jsonValue,
         DiskOp.rename mainJsonName backupJsonName])
        (DiskOp.rename newJsonName mainJsonName) = D4
      rw [e3]
      simp [applyDiskOp, hd3new, hD4]
    match k with
    | 0 =>
      simp only [List.take_zero, applyDiskOps_nil]
      refine ⟨Or.inl hmain, fun x hx => ?_⟩
      rw [hmain] at hx
      exact Or.inl (Option.some.inj hx).symm
    | 1 =>
      simp only [List.take_succ_cons, List.take_zero]
      rw [e1]
      refine ⟨Or.inl hd1main, fun x hx => ?_⟩
      rw [hd1main] at hx
      exact Or.inl (Option.some.inj hx).symm
    | 2 =>
      simp only [List.take_succ_cons, List.take_zero]
      rw [e3]
      refine ⟨Or.inr hd3backup, fun x hx => ?_⟩
      rw [hd3main] at hx
      exact absurd hx (by simp)
    | (n + 3) =>
      simp only [List.take_succ_cons, List.take_nil]
      rw [e4]
      refine ⟨Or.inr hd4backup, fun x hx => ?_⟩
      rw [hd4main] at hx
      exact Or.inr (Option.some.inj hx).symm

/-- Witness for `c9_update_metadata_safe` at a concrete input (a disk
holding only a main state file, prefix length 3). -/
theorem c9_update_metadata_safe_witness :
    update_metadata_steps ({} : ChatData) [(mainJsonName, Json.null)] =
      [DiskOp.write newJsonName (ChatData.to_jsonValue {})] ++
      ((if dmem [(mainJsonName, Json.null)] backupJsonName then
          [DiskOp.removeFile backupJsonName] else []) ++
       [DiskOp.rename mainJsonName backupJsonName]) ++
      [DiskOp.rename newJsonName mainJsonName] ∧
    ((dget (applyDiskOps [(mainJsonName, Json.null)]
        ((update_metadata_steps ({} : ChatData) [(mainJsonName, Json.null)]).take 3))
        mainJsonName = some Json.null ∨
      dget (applyDiskOps [(mainJsonName, Json.null)]
        ((update_metadata_steps ({} : ChatData) [(mainJsonName, Json.null)]).take 3))
        backupJsonName = some Json.null) ∧
     ∀ x, dget (applyDiskOps [(mainJsonName, Json.null)]
        ((update_metadata_steps ({} : ChatData) [(mainJsonName, Json.null)]).take 3))
        mainJsonName = some x →
       x = Json.null ∨ x = ChatData.to_jsonValue {}) :=
  c9_update_metadata_safe {} [(mainJsonName, Json.null)] Json.null 3 (by simp [dget])

/-! ## C3: deduplication of the merged messages -/

theorem dedupStep_cons (st : List String × List Message) (m : Message)
    (msgs : List Message) :
    dedupStep st (m :: msgs) =
      dedupStep (if msgHash m ∈ st.1 then st else (st.1 ++ [msgHash m], st.2 ++ [m]))
        msgs := by
  by_cases h : msgHash m ∈ st.1 <;> simp [dedupStep, h]

theorem dedupStep_good (msgs : List Message) :
    ∀ st : List String × List Message, st.1 = st.2.map msgHash → st.1.Nodup →
      (dedupStep st msgs).1 = (dedupStep st msgs).2.map msgHash ∧
      (dedupStep st msgs).1.Nodup := by
  induction msgs with
  | nil => intro st h1 h2; exact ⟨h1, h2⟩
  | cons m rest ih =>
    intro st h1 h2
    rw [dedupStep_cons]
    by_cases h : msgHash m ∈ st.1
    · rw [if_pos h]
      exact ih st h1 h2
    · rw [if_neg h]
      refine ih _ ?_ ?_
      · simp [h1]
      · simp [List.nodup_append, h2, h]

theorem dedupStep_sublist (msgs : List Message) :
    ∀ st : List String × List Message,
      ∃ l', (dedupStep st msgs).2 = st.2 ++ l' ∧ List.Sublist l' msgs := by
  induction msgs with
  | nil =>
    intro st
    exact ⟨[], by simp [dedupStep], List.nil_sublist _⟩
  | cons m rest ih =>
    intro st
    rw [dedupStep_cons]
    by_cases h : msgHash m ∈ st.1
    · rw [if_pos h]
      obtain ⟨l', hl, hs⟩ := ih st
      exact ⟨l', hl, hs.trans (List.sublist_cons_self m rest)⟩
    · rw [if_neg h]
      obtain ⟨l', hl, hs⟩ := ih (st.1 ++ [msgHash m], st.2 ++ [m])
      refine ⟨m :: l', ?_, List.cons_sublist_cons.mpr hs⟩
      rw [hl]
      simp

theorem mergeFold_good (l : List Tup) :
    ∀ st : List (ChatFileID × ChatFile) × List String × List Message,
      st.2.1 = st.2.2.map msgHash → st.2.1.Nodup →
      (l.foldl mergeStep st).2.1 = (l.foldl mergeStep st).2.2.map msgHash ∧
      (l.foldl mergeStep st).2.1.Nodup := by
  induction l with
  | nil => intro st h1 h2; exact ⟨h1, h2⟩
  | cons t rest ih =>
    intro st h1 h2
    rw [List.foldl_cons]
    obtain ⟨g1, g2⟩ := dedupStep_good t.2.2.messages (st.2.1, st.2.2) h1 h2
    exact ih _ g1 g2

theorem mergeChatTuples_nodup (input_files : List (ChatFileID × ChatFile))
    (tuples : List Tup) :
    ((mergeChatTuples input_files tuples).2.map msgHash).Nodup := by
  obtain ⟨g1, g2⟩ := mergeFold_good (pySortByMtime tuples)
    (input_files, [], []) rfl List.nodup_nil
  rw [mergeChatTuples]
  rw [g1] at g2
  exact g2

theorem process_messages_chats_mem (vfs : VFS) (old_chat_data : ChatData)
    (kv : ChatName × Chat) (hkv : kv ∈ (process_messages vfs old_chat_data).chats) :
    ∃ inf tuples, kv.2 =
      { chat_name := kv.1, messages := (mergeChatTuples inf tuples).2,
        output_files := [] } := by
  have main : ∀ (groups : List (ChatName × List Tup))
      (st : List (ChatName × Chat) × List (ChatFileID × ChatFile)),
      (∀ kv' ∈ st.1, ∃ inf tuples, kv'.2 =
        { chat_name := kv'.1, messages := (mergeChatTuples inf tuples).2,
          output_files := [] }) →
      ∀ kv' ∈ (groups.foldl processChatStep st).1, ∃ inf tuples, kv'.2 =
        { chat_name := kv'.1, messages := (mergeChatTuples inf tuples).2,
          output_files := [] } := by
    intro groups
    induction groups with
    | nil => intro st h kv' hkv'; exact h kv' hkv'
    | cons g rest ih =>
      intro st h kv' hkv'
      rw [List.foldl_cons] at hkv'
      refine ih _ ?_ kv' hkv'
      intro kv'' hkv''
      rcases mem_dput _ _ _ _ hkv'' with h' | h'
      · refine ⟨st.2, g.2, ?_⟩
        rw [h']
      · exact h kv'' h'
  exact main _ ([], []) (by intro kv' h'; simp at h') kv hkv

/-- C3: in the `ChatData` returned by `process_messages`, no chat's message
list has two positions with equal `(timestamp, sender, content)` (such
messages have equal deduplication keys, and the merge keeps only the first
occurrence of each key). -/
theorem c3_no_duplicate_triples (vfs : VFS) (old_chat_data : ChatData)
    (cn : ChatName) (chat : Chat)
    (h : dget (process_messages vfs old_chat_data).chats cn = some chat)
    (i j : Nat) (hi : i < chat.messages.length) (hj : j < chat.messages.length)
    (hij : i ≠ j) :
    ¬(chat.messages[i].timestamp = chat.messages[j].timestamp ∧
      chat.messages[i].sender = chat.messages[j].sender ∧
      chat.messages[i].content = chat.messages[j].content) := by
  rintro ⟨ht, hs, hc⟩
  obtain ⟨inf, tuples, hshape⟩ :=
    process_messages_chats_mem vfs old_chat_data (cn, chat) (dget_eq_some_mem h)
  have hnd : (chat.messages.map msgHash).Nodup := by
    have : chat.messages = (mergeChatTuples inf tuples).2 := by
      rw [show chat = (cn, chat).2 from rfl, hshape]
    rw [this]
    exact mergeChatTuples_nodup inf tuples
  have hhash : msgHash chat.messages[i] = msgHash chat.messages[j] := by
    unfold msgHash
    rw [ht, hs, hc]
  have hi' : i < (chat.messages.map msgHash).length := by simpa using hi
  have hj' : j < (chat.messages.map msgHash).length := by simpa using hj
  have hmi : (chat.messages.map msgHash).get ⟨i, hi'⟩ = msgHash chat.messages[i] := by
    simp
  have hmj : (chat.messages.map msgHash).get ⟨j, hj'⟩ = msgHash chat.messages[j] := by
    simp
  have hget : (chat.messages.map msgHash).get ⟨i, hi'⟩ =
      (chat.messages.map msgHash).get ⟨j, hj'⟩ := by
    rw [hmi, hmj, hhash]
  have hfin := (List.Nodup.get_inj_iff hnd).mp hget
  exact hij (by simpa using hfin)

/-- Witness for `c3_no_duplicate_triples` at a concrete input. -/
theorem c3_no_duplicate_triples_witness :
    ¬((({ exM1 with content := "d" } : Message)).timestamp =
        (({ exM1 with content := "e" } : Message)).timestamp ∧
      (({ exM1 with content := "d" } : Message)).sender =
        (({ exM1 with content := "e" } : Message)).sender ∧
      (({ exM1 with content := "d" } : Message)).content =
        (({ exM1 with content := "e" } : Message)).content) := by
  have h := c3_no_duplicate_triples {} exOld2 ⟨"S"⟩
    { chat_name := ⟨"S"⟩,
      messages := [{ exM1 with content := "d" }, { exM1 with content := "e" }] }
    (by decide) 0 1 (by decide) (by decide) (by decide)
  simp at h
  simp [h]

theorem dput_dput_self {κ β : Type} [DecidableEq κ] (d : List (κ × β)) (k : κ)
    (v w : β) : dput (dput d k v) k w = dput d k w := by
  induction d with
  | nil => simp [dput]
  | cons kv rest ih =>
    by_cases hk : kv.1 = k
    · simp [dput, hk]
    · simp [dput, hk, ih]

/-! ## C8: order stability from transcript to processor output -/

theorem raw_to_message_triple (raw : RawChatLine) (f : ChatFile) :
    msgTriple (raw_chat_line_to_message raw f) = rawTriple raw := by
  unfold raw_chat_line_to_message
  cases mediaSearch raw.content.data with
  | none => rfl
  | some p => cases p with | mk fn span => rfl

theorem raw_to_message_fileid (raw : RawChatLine) (f : ChatFile) :
    (raw_chat_line_to_message raw f).input_file_id = f.id := by
  unfold raw_chat_line_to_message
  cases mediaSearch raw.content.data with
  | none => rfl
  | some p => cases p with | mk fn span => rfl

theorem parse_foldl_acc (f : ChatFile) (rest : List String) :
    ∀ (msgs0 : List Message) (cur : RawChatLine) (cls : List String),
      rest.foldl (parseFoldStep f) (msgs0, cur, cls) =
        (msgs0 ++ (rest.foldl (parseFoldStep f) ([], cur, cls)).1,
         (rest.foldl (parseFoldStep f) ([], cur, cls)).2) := by
  induction rest with
  | nil => intro msgs0 cur cls; simp
  | cons line rest' ih =>
    intro msgs0 cur cls
    rw [List.foldl_cons, List.foldl_cons]
    cases hp : parse_chat_line line with
    | some nxt =>
      simp only [parseFoldStep, hp]
      rw [ih (msgs0 ++ [_]) nxt [nxt.content], ih ([] ++ [_]) nxt [nxt.content]]
      simp
    | none =>
      simp only [parseFoldStep, hp]
      rw [ih msgs0 cur (cls ++ [line]), ih [] cur (cls ++ [line])]

theorem parse_foldl_triples (f : ChatFile) (rest : List String) :
    ∀ (cur : RawChatLine) (cls : List String),
      (((rest.foldl (parseFoldStep f) ([], cur, cls)).1 ++
        [raw_chat_line_to_message
          { (rest.foldl (parseFoldStep f) ([], cur, cls)).2.1 with
            content := String.join (rest.foldl (parseFoldStep f) ([], cur, cls)).2.2 }
          f]).map msgTriple) =
      (cur :: rest.filterMap parse_chat_line).map rawTriple := by
  induction rest with
  | nil =>
    intro cur cls
    simp only [List.foldl_nil, List.filterMap_nil, List.map_cons, List.map_nil,
      List.nil_append, List.map_cons]
    rw [raw_to_message_triple]
    rfl
  | cons line rest' ih =>
    intro cur cls
    rw [List.foldl_cons]
    cases hp : parse_chat_line line with
    | some nxt =>
      simp only [parseFoldStep, hp]
      rw [parse_foldl_acc f rest' ([] ++ [_]) nxt [nxt.content]]
      simp only [List.filterMap_cons, hp]
      have hmsg : msgTriple (raw_chat_line_to_message
          { cur with content := String.join cls } f) = rawTriple cur := by
        rw [raw_to_message_triple]
        rfl
      have := ih nxt [nxt.content]
      simp only [List.map_cons] at this ⊢
      rw [← this]
      simp [hmsg]
    | none =>
      simp only [parseFoldStep, hp]
      rw [List.filterMap_cons, hp]
      exact ih cur (cls ++ [line])

theorem parse_chat_lines_triples (lines : List String) (f : ChatFile) (c : Chat)
    (h : parse_chat_lines lines f = some c) :
    c.messages.map msgTriple = (messageRawLines lines).map rawTriple := by
  match lines with
  | [] => simp [parse_chat_lines] at h
  | l0 :: rest =>
    rw [parse_chat_lines] at h
    cases hp : parse_chat_line l0 with
    | none => rw [hp] at h; simp at h
    | some first =>
      rw [hp] at h
      simp only [Option.some.injEq] at h
      rw [messageRawLines, hp, ← h]
      exact parse_foldl_triples f rest first [first.content]

theorem vfsWith_open (f : ChatFile) (content : String) (hex : f.exists_ = true) :
    (vfsWith f content).open_file f = some content := by
  simp [vfsWith, VFS.open_file, hex, dget_dput_self]

theorem parse_chat_file_vfsWith (f : ChatFile) (content : String) (c : Chat)
    (hex : f.exists_ = true)
    (hparse : parse_chat_file (vfsWith f content) f = some c) :
    parse_chat_lines (pySplitLines content) f = some c := by
  rw [parse_chat_file, vfsWith_open f content hex] at hparse
  dsimp only at hparse
  by_cases he : (pySplitLines content).isEmpty
  · rw [if_pos he] at hparse
    exact absurd hparse (by simp)
  · rw [if_neg he] at hparse
    exact hparse

theorem process_single_file (f : ChatFile) (content : String) (c : Chat)
    (hbase : basename f.path = "_chat.txt") (hex : f.exists_ = true)
    (hparse : parse_chat_file (vfsWith f content) f = some c) :
    (process_messages (vfsWith f content) {}).chats =
      [(c.chat_name,
        { chat_name := c.chat_name, messages := (dedupStep ([], []) c.messages).2,
          output_files := [] })] := by
  have hseed : seedOldChats (vfsWith f content) {} = [] := rfl
  have hvals : dvalues (vfsWith f content).files_by_path = [f] := rfl
  have hcollect : collectNewFiles (vfsWith f content) [] =
      [(c.chat_name, [(f.modification_timestamp, f, c)])] := by
    rw [collectNewFiles, hvals, List.foldl_cons, List.foldl_nil]
    rw [if_pos ⟨hbase, hex⟩]
    rw [show anyTupleId [] f.id = false from rfl]
    simp only [Bool.false_eq_true, if_false, hparse]
    rw [show dmem ([] : List (ChatName × List Tup)) c.chat_name = false from rfl]
    simp only [Bool.false_eq_true, if_false]
    rw [dget_dput_self, dput_dput_self]
    rfl
  rw [process_messages, hseed, hcollect]
  rw [List.foldl_cons, List.foldl_nil]
  simp only [processChatStep, mergeChatTuples, pySortByMtime, List.foldr,
    insertByMtime, List.foldl_cons, List.foldl_nil, mergeStep]
  rfl

/-- C8: the messages a single parsed `_chat.txt` transcript contributes to
the processor's output (run with no previous state) form a sublist of the
parsed message sequence — deduplication keeps first occurrences without
reordering — and the parsed message sequence itself carries the
`(timestamp, sender, year)` triples of the transcript's message lines in
file order. -/
theorem c8_single_transcript_order (f : ChatFile) (content : String) (c : Chat)
    (hbase : basename f.path = "_chat.txt") (hex : f.exists_ = true)
    (hparse : parse_chat_file (vfsWith f content) f = some c) :
    ∃ c', dget (process_messages (vfsWith f content) {}).chats c.chat_name = some c' ∧
      List.Sublist c'.messages c.messages ∧
      c.messages.map msgTriple = (messageRawLines (pySplitLines content)).map rawTriple := by
  refine ⟨{ chat_name := c.chat_name, messages := (dedupStep ([], []) c.messages).2,
            output_files := [] }, ?_, ?_, ?_⟩
  · rw [process_single_file f content c hbase hex hparse]
    simp [dget]
  · obtain ⟨l', hl, hs⟩ := dedupStep_sublist c.messages ([], [])
    simp only [hl]
    simpa using hs
  · exact parse_chat_lines_triples (pySplitLines content) f c
      (parse_chat_file_vfsWith f content c hex hparse)

/-- Witness for `c8_single_transcript_order` at a concrete input. -/
theorem c8_single_transcript_order_witness :
    ∃ c', dget (process_messages (vfsWith exRootChatFile exCssTxt) {}).chats
        (ChatName.mk "Space Rocket") = some c' ∧
      List.Sublist c'.messages
        ((parse_chat_file (vfsWith exRootChatFile exCssTxt) exRootChatFile).getD
          { chat_name := ⟨"Space Rocket"⟩ }).messages ∧
      ((parse_chat_file (vfsWith exRootChatFile exCssTxt) exRootChatFile).getD
          { chat_name := ⟨"Space Rocket"⟩ }).messages.map msgTriple =
        (messageRawLines (pySplitLines exCssTxt)).map rawTriple := by
  have h := c8_single_transcript_order exRootChatFile exCssTxt
    ((parse_chat_file (vfsWith exRootChatFile exCssTxt) exRootChatFile).getD
      { chat_name := ⟨"Space Rocket"⟩ })
    (by decide) (by decide) (by decide)
  have hname : ((parse_chat_file (vfsWith exRootChatFile exCssTxt)
      exRootChatFile).getD { chat_name := ⟨"Space Rocket"⟩ }).chat_name =
      ChatName.mk "Space Rocket" := by decide
  rw [hname] at h
  exact h

/-! ## C1: second run over unchanged input regenerates nothing -/

/-- C1 (the code evaluated at the failing input): over the unchanged
input tree `exVfsCss` — one transcript whose second message references a
media file named `browseability-generator.css`, a name that does not exist
in the input tree — the second pipeline run marks the 2022 output file for
regeneration.  The first run resolved the media name to nothing
(`some none` in `media_dependencies`); before the second run the history
merge injects the previous run's CSS asset handle into the VFS at path
`browseability-generator.css`, the media locator resolves the media name
to that handle, the media dependencies differ, and the checker sets
`generate = true`. -/
theorem c1_second_run_regenerates :
    (∃ kv ∈ exRunC5.chats, ∃ yf ∈ kv.2.output_files,
       dget yf.2.media_dependencies "browseability-generator.css" = some none) ∧
    ∃ kv ∈ exRun2C1.chats, ∃ yf ∈ kv.2.output_files, yf.2.generate = true ∧
      dget yf.2.media_dependencies "browseability-generator.css" =
        some (some (cssFile 10 7).id) := by decide

/-! ## C2: JSON round-trip of `ChatData` -/

theorem mem_insertKeySorted (kv x : String × Json) (l : List (String × Json)) :
    x ∈ insertKeySorted kv l ↔ x = kv ∨ x ∈ l := by
  induction l with
  | nil => simp [insertKeySorted]
  | cons kv' rest ih =>
    by_cases h : pyStrLe kv.1 kv'.1
    · simp [insertKeySorted, h]
    · simp [insertKeySorted, h, ih]
      tauto

theorem mem_sortKeys (x : String × Json) (l : List (String × Json)) :
    x ∈ sortKeys l ↔ x ∈ l := by
  induction l with
  | nil => simp [sortKeys]
  | cons kv rest ih =>
    rw [sortKeys, List.foldr_cons, mem_insertKeySorted,
      show List.foldr insertKeySorted [] rest = sortKeys rest from rfl, ih]
    simp

theorem mem_insertStrSorted (s x : String) (l : List String) :
    x ∈ insertStrSorted s l ↔ x = s ∨ x ∈ l := by
  induction l with
  | nil => simp [insertStrSorted]
  | cons s' rest ih =>
    by_cases h : pyStrLe s s'
    · simp [insertStrSorted, h]
    · simp [insertStrSorted, h, ih]
      tauto

theorem mem_sortStrings (x : String) (l : List String) :
    x ∈ sortStrings l ↔ x ∈ l := by
  induction l with
  | nil => simp [sortStrings]
  | cons s rest ih =>
    rw [sortStrings, List.foldr_cons, mem_insertStrSorted,
      show List.foldr insertStrSorted [] rest = sortStrings rest from rfl, ih]
    simp

theorem insertKeySorted_ne_nil (kv : String × Json) (l : List (String × Json)) :
    insertKeySorted kv l ≠ [] := by
  cases l with
  | nil => simp [insertKeySorted]
  | cons kv' rest =>
    rw [insertKeySorted]
    by_cases h : pyStrLe kv.1 kv'.1
    · simp [h]
    · simp [h]

theorem dget_eq_of_mem_nodup {κ β : Type} [DecidableEq κ] :
    ∀ (d : List (κ × β)), (d.map Prod.fst).Nodup →
      ∀ kv ∈ d, dget d kv.1 = some kv.2 := by
  intro d
  induction d with
  | nil => intro _ kv hkv; simp at hkv
  | cons a rest ih =>
    intro hnd kv hkv
    rw [List.map_cons, List.nodup_cons] at hnd
    rcases List.mem_cons.mp hkv with h1 | h1
    · subst h1
      simp [dget]
    · have hne : a.1 ≠ kv.1 := by
        intro he
        exact hnd.1 (he ▸ List.mem_map.mpr ⟨kv, h1, rfl⟩)
      obtain ⟨k0, v0⟩ := a
      simp only [dget, if_neg hne]
      exact ih hnd.2 kv h1

theorem dget_isSome_of_mem {κ β : Type} [DecidableEq κ] :
    ∀ (d : List (κ × β)) (kv : κ × β), kv ∈ d → (dget d kv.1).isSome = true := by
  intro d
  induction d with
  | nil => intro kv hkv; simp at hkv
  | cons a rest ih =>
    intro kv hkv
    obtain ⟨k0, v0⟩ := a
    by_cases h : k0 = kv.1
    · simp [dget, h]
    · rcases List.mem_cons.mp hkv with h1 | h1
      · rw [h1] at h; simp at h
      · simp only [dget, if_neg h]
        exact ih kv h1

/-- Python dict equality holds between a decoded dict and its source when
every decoded entry matches a source entry whose key it carries and every
source key occurs among the decoded keys (source keys duplicate-free). -/
theorem deqBy_true_intro {κ β : Type} [DecidableEq κ] (veq : β → β → Bool)
    (d' d : List (κ × β)) (hnd : (d.map Prod.fst).Nodup)
    (h1 : ∀ kv' ∈ d', ∃ kv ∈ d, kv'.1 = kv.1 ∧ veq kv'.2 kv.2 = true)
    (h2 : ∀ kv ∈ d, ∃ kv' ∈ d', kv'.1 = kv.1) :
    deqBy veq d' d = true := by
  simp only [deqBy, Bool.and_eq_true, List.all_eq_true]
  constructor
  · intro kv' hkv'
    obtain ⟨kv, hkv, hk, hv⟩ := h1 kv' hkv'
    rw [hk, dget_eq_of_mem_nodup d hnd kv hkv]
    exact hv
  · intro kv hkv
    obtain ⟨kv', hkv', hk⟩ := h2 kv hkv
    rw [← hk]
    exact dget_isSome_of_mem d' kv' hkv'

theorem setEq_true_intro {α : Type} [DecidableEq α] (a b : List α)
    (h1 : ∀ x ∈ a, x ∈ b) (h2 : ∀ x ∈ b, x ∈ a) : setEq a b = true := by
  simp only [setEq, Bool.and_eq_true, List.all_eq_true, decide_eq_true_eq]
  exact ⟨h1, h2⟩

theorem mapM_map_eq_some {α β : Type} (enc : α → β) (f : β → Option α) :
    ∀ l : List α, (∀ a ∈ l, f (enc a) = some a) → (l.map enc).mapM f = some l := by
  intro l
  induction l with
  | nil => intro _; rfl
  | cons a rest ih =>
    intro h
    rw [List.map_cons, List.mapM_cons, h a (List.mem_cons_self _ _),
      ih (fun a' ha' => h a' (List.mem_cons_of_mem _ ha'))]
    rfl

theorem mapM_exists_forall2 {α β : Type} (f : α → Option β) (R : β → α → Prop) :
    ∀ l : List α, (∀ a ∈ l, ∃ b, f a = some b ∧ R b a) →
      ∃ bs, l.mapM f = some bs ∧ List.Forall₂ R bs l := by
  intro l
  induction l with
  | nil => intro _; exact ⟨[], rfl, List.Forall₂.nil⟩
  | cons a rest ih =>
    intro h
    obtain ⟨b, hb, hR⟩ := h a (List.mem_cons_self _ _)
    obtain ⟨bs, hbs, hF⟩ := ih (fun a' ha' => h a' (List.mem_cons_of_mem _ ha'))
    refine ⟨b :: bs, ?_, List.Forall₂.cons hR hF⟩
    rw [List.mapM_cons, hb, hbs]
    rfl

theorem forall2_mem_left {α β : Type} {R : β → α → Prop} {bs : List β} {as : List α}
    (h : List.Forall₂ R bs as) : ∀ b ∈ bs, ∃ a ∈ as, R b a := by
  induction h with
  | nil => intro b hb; simp at hb
  | cons hR hF ih =>
    intro b hb
    rcases List.mem_cons.mp hb with h1 | h1
    · subst h1; exact ⟨_, List.mem_cons_self _ _, hR⟩
    · obtain ⟨a, ha, hRa⟩ := ih b h1
      exact ⟨a, List.mem_cons_of_mem _ ha, hRa⟩

theorem forall2_mem_right {α β : Type} {R : β → α → Prop} {bs : List β} {as : List α}
    (h : List.Forall₂ R bs as) : ∀ a ∈ as, ∃ b ∈ bs, R b a := by
  induction h with
  | nil => intro a ha; simp at ha
  | cons hR hF ih =>
    intro a ha
    rcases List.mem_cons.mp ha with h1 | h1
    · subst h1; exact ⟨_, List.mem_cons_self _ _, hR⟩
    · obtain ⟨b, hb, hRb⟩ := ih a h1
      exact ⟨b, List.mem_cons_of_mem _ hb, hRb⟩

theorem mem_saddFold (vals : List String) :
    ∀ (init : List ChatFileID) (x : ChatFileID),
      x ∈ vals.foldl (fun s v => sadd s (ChatFileID.mk v)) init ↔
        x ∈ init ∨ ∃ v ∈ vals, x = ChatFileID.mk v := by
  induction vals with
  | nil => intro init x; simp
  | cons v rest ih =>
    intro init x
    rw [List.foldl_cons, ih, mem_sadd]
    simp
    tauto

theorem chatFileID_mk_value (i : ChatFileID) : ChatFileID.mk i.value = i := rfl

theorem chatName_mk_name (n : ChatName) : ChatName.mk n.name = n := rfl

/-- A serialized `Message` decodes back to itself. -/
theorem message_roundtrip (m : Message) :
    (jObj? m.to_dictJ >>= decode_messageJ) = some m := by
  obtain ⟨ts, sd, ct, yr, ⟨idv⟩, mn⟩ := m
  cases mn with
  | none => rfl
  | some s => rfl

/-- A serialized `ChatFile` decodes back to itself, provided a present
`parent_zip` id is a non-empty string (an empty one is read back as
`None` by the falsiness test of `from_dict`). -/
theorem chatfile_roundtrip (f : ChatFile)
    (hpz : ∀ z, f.parent_zip = some z → z.value ≠ "") :
    (jObj? f.to_dictJ >>= ChatFile.from_dictJ) = some f := by
  obtain ⟨path, size, mtime, pz, ex⟩ := f
  cases pz with
  | none => rfl
  | some z =>
    obtain ⟨zv⟩ := z
    have hz : zv ≠ "" := hpz ⟨zv⟩ rfl
    have h1 : (jObj? (ChatFile.to_dictJ ⟨path, size, mtime, some ⟨zv⟩, ex⟩) >>=
        ChatFile.from_dictJ) =
        some ⟨path, size, mtime, if zv = "" then none else some ⟨zv⟩, ex⟩ := rfl
    rw [h1, if_neg hz]

/-- A serialized `OutputFile` decodes to a Python-equal `OutputFile`:
`media_dependencies` comes back in key-sorted order (equal as a mapping
when its keys are distinct and its ids non-empty), `chat_dependencies`
comes back as the set built from the sorted id list, and a present
`css_dependency` survives when its id is a non-empty string. -/
theorem outputfile_roundtrip (f : OutputFile)
    (hndM : (f.media_dependencies.map Prod.fst).Nodup)
    (hmed : ∀ nv ∈ f.media_dependencies, ∀ i, nv.2 = some i → i.value ≠ "")
    (hcss : ∀ i, f.css_dependency = some i → i.value ≠ "") :
    ∃ f', (jObj? f.to_dictJ >>= OutputFile.from_dictJ) = some f' ∧
      OutputFile.pyEq f' f = true := by
  obtain ⟨y, g, media, cdeps, css⟩ := f
  have hmm : ∃ md, (sortKeys (media.map (fun kv => (kv.1, encOptId kv.2)))).mapM
      (fun kv => match kv.2 with
        | Json.str s => some (kv.1, if s = "" then none else some (ChatFileID.mk s))
        | Json.null => some (kv.1, (none : Option ChatFileID))
        | _ => none) = some md ∧
      List.Forall₂ (fun b a => ∃ nv ∈ media, a = (nv.1, encOptId nv.2) ∧ b = nv) md
        (sortKeys (media.map (fun kv => (kv.1, encOptId kv.2)))) := by
    apply mapM_exists_forall2
    intro a ha
    rw [mem_sortKeys] at ha
    simp only [List.mem_map] at ha
    obtain ⟨nv, hnv, he⟩ := ha
    cases hv : nv.2 with
    | none =>
      refine ⟨(nv.1, none), ?_, nv, hnv, he.symm, ?_⟩
      · rw [← he]
        dsimp only
        rw [hv]
        rfl
      · rw [← hv]
    | some i =>
      have hi : i.value ≠ "" := hmed nv hnv i hv
      refine ⟨(nv.1, some i), ?_, nv, hnv, he.symm, ?_⟩
      · rw [← he]
        dsimp only
        rw [hv]
        show some (nv.1, if i.value = "" then none else some (ChatFileID.mk i.value)) =
          some (nv.1, some i)
        rw [if_neg hi, chatFileID_mk_value]
      · rw [← hv]
  obtain ⟨md, hmd, hmdF⟩ := hmm
  have hdeq : deqBy (fun x y => x = y) md media = true := by
    refine deqBy_true_intro _ md media hndM ?_ ?_
    · intro b hb
      obtain ⟨a, _, nv, hnv, _, hbnv⟩ := forall2_mem_left hmdF b hb
      refine ⟨nv, hnv, ?_, ?_⟩
      · rw [hbnv]
      · rw [hbnv]; simp
    · intro nv hnv
      have ha : (nv.1, encOptId nv.2) ∈
          sortKeys (media.map (fun kv => (kv.1, encOptId kv.2))) := by
        rw [mem_sortKeys]
        exact List.mem_map.mpr ⟨nv, hnv, rfl⟩
      obtain ⟨b, hb, nv2, hnv2, ha2, hbnv2⟩ := forall2_mem_right hmdF _ ha
      refine ⟨b, hb, ?_⟩
      rw [Prod.mk.injEq] at ha2
      rw [hbnv2, ← ha2.1]
  cases cdeps with
  | nil =>
    cases css with
    | none =>
      refine ⟨⟨y, g, md, [], none⟩, ?_, ?_⟩
      · have h1 : (jObj? (OutputFile.to_dictJ ⟨y, g, media, [], none⟩) >>=
            OutputFile.from_dictJ) =
            ((sortKeys (media.map (fun kv : String × Option ChatFileID =>
                (kv.1, encOptId kv.2)))).mapM
              (fun kv : String × Json => match kv.2 with
                | Json.str s => some (kv.1, if s = "" then none else some (ChatFileID.mk s))
                | Json.null => some (kv.1, (none : Option ChatFileID))
                | _ => none)).bind (fun md =>
              some ⟨y, g, md, [], none⟩) := rfl
        rw [h1, hmd]
        rfl
      · simp only [OutputFile.pyEq, Bool.and_eq_true, decide_eq_true_eq]
        exact ⟨⟨⟨⟨trivial, trivial⟩, hdeq⟩, rfl⟩, trivial⟩
    | some i =>
      obtain ⟨iv⟩ := i
      have hiv : iv ≠ "" := hcss ⟨iv⟩ rfl
      refine ⟨⟨y, g, md, [], some ⟨iv⟩⟩, ?_, ?_⟩
      · have h1 : (jObj? (OutputFile.to_dictJ ⟨y, g, media, [], some ⟨iv⟩⟩) >>=
            OutputFile.from_dictJ) =
            ((sortKeys (media.map (fun kv : String × Option ChatFileID =>
                (kv.1, encOptId kv.2)))).mapM
              (fun kv : String × Json => match kv.2 with
                | Json.str s => some (kv.1, if s = "" then none else some (ChatFileID.mk s))
                | Json.null => some (kv.1, (none : Option ChatFileID))
                | _ => none)).bind (fun md =>
              some ⟨y, g, md, [],
                if iv = "" then none else some (ChatFileID.mk iv)⟩) := rfl
        rw [h1, hmd]
        show some (⟨y, g, md, [],
          if iv = "" then none else some (ChatFileID.mk iv)⟩ : OutputFile) = _
        rw [if_neg hiv]
      · simp only [OutputFile.pyEq, Bool.and_eq_true, decide_eq_true_eq]
        exact ⟨⟨⟨⟨trivial, trivial⟩, hdeq⟩, rfl⟩, trivial⟩
  | cons c cs =>
    have hxs : ((sortStrings ((c :: cs).map (fun x : ChatFileID => x.value))).map Json.str).mapM
        (fun j => match j with | Json.str s => some s | _ => none) =
        some (sortStrings ((c :: cs).map (fun x : ChatFileID => x.value))) :=
      mapM_map_eq_some _ _ _ (fun a _ => rfl)
    have hset : setEq ((sortStrings ((c :: cs).map (fun x : ChatFileID => x.value))).foldl
        (fun s v => sadd s (ChatFileID.mk v)) []) (c :: cs) = true := by
      refine setEq_true_intro _ _ ?_ ?_
      · intro x hx
        rcases (mem_saddFold _ _ _).mp hx with h0 | ⟨v, hv, hxv⟩
        · simp at h0
        · rw [mem_sortStrings] at hv
          obtain ⟨i, hi, hiv⟩ := List.mem_map.mp hv
          have hiv' : i.value = v := hiv
          rw [hxv, ← hiv', chatFileID_mk_value]
          exact hi
      · intro i hi
        rw [mem_saddFold]
        right
        exact ⟨i.value, (mem_sortStrings _ _).mpr (List.mem_map.mpr ⟨i, hi, rfl⟩),
          (chatFileID_mk_value i).symm⟩
    cases css with
    | none =>
      refine ⟨⟨y, g, md, (sortStrings ((c :: cs).map (fun x : ChatFileID => x.value))).foldl
        (fun s v => sadd s (ChatFileID.mk v)) [], none⟩, ?_, ?_⟩
      · have h1 : (jObj? (OutputFile.to_dictJ ⟨y, g, media, c :: cs, none⟩) >>=
            OutputFile.from_dictJ) =
            ((sortKeys (media.map (fun kv : String × Option ChatFileID =>
                (kv.1, encOptId kv.2)))).mapM
              (fun kv : String × Json => match kv.2 with
                | Json.str s => some (kv.1, if s = "" then none else some (ChatFileID.mk s))
                | Json.null => some (kv.1, (none : Option ChatFileID))
                | _ => none)).bind (fun md =>
              (((sortStrings ((c :: cs).map (fun x : ChatFileID => x.value))).map Json.str).mapM
                (fun j => match j with | Json.str s => some s | _ => none)).bind
                (fun vals => some ⟨y, g, md,
                  vals.foldl (fun s v => sadd s (ChatFileID.mk v)) [], none⟩)) := rfl
        rw [h1, hmd, hxs]
        rfl
      · simp only [OutputFile.pyEq, Bool.and_eq_true, decide_eq_true_eq]
        exact ⟨⟨⟨⟨trivial, trivial⟩, hdeq⟩, hset⟩, trivial⟩
    | some i =>
      obtain ⟨iv⟩ := i
      have hiv : iv ≠ "" := hcss ⟨iv⟩ rfl
      refine ⟨⟨y, g, md, (sortStrings ((c :: cs).map (fun x : ChatFileID => x.value))).foldl
        (fun s v => sadd s (ChatFileID.mk v)) [], some ⟨iv⟩⟩, ?_, ?_⟩
      · have h1 : (jObj? (OutputFile.to_dictJ ⟨y, g, media, c :: cs, some ⟨iv⟩⟩) >>=
            OutputFile.from_dictJ) =
            ((sortKeys (media.map (fun kv : String × Option ChatFileID =>
                (kv.1, encOptId kv.2)))).mapM
              (fun kv : String × Json => match kv.2 with
                | Json.str s => some (kv.1, if s = "" then none else some (ChatFileID.mk s))
                | Json.null => some (kv.1, (none : Option ChatFileID))
                | _ => none)).bind (fun md =>
              (((sortStrings ((c :: cs).map (fun x : ChatFileID => x.value))).map Json.str).mapM
                (fun j => match j with | Json.str s => some s | _ => none)).bind
                (fun vals => some ⟨y, g, md,
                  vals.foldl (fun s v => sadd s (ChatFileID.mk v)) [],
                  if iv = "" then none else some (ChatFileID.mk iv)⟩)) := rfl
        rw [h1, hmd, hxs]
        show some (⟨y, g, md, (sortStrings ((c :: cs).map (fun x : ChatFileID => x.value))).foldl
          (fun s v => sadd s (ChatFileID.mk v)) [],
          if iv = "" then none else some (ChatFileID.mk iv)⟩ : OutputFile) = _
        rw [if_neg hiv]
      · simp only [OutputFile.pyEq, Bool.and_eq_true, decide_eq_true_eq]
        exact ⟨⟨⟨⟨trivial, trivial⟩, hdeq⟩, hset⟩, trivial⟩

/-- A serialized chat entry decodes to a Python-equal `Chat` under the
given key `name` (the messages come back verbatim, the output files as a
mapping), provided the chat's stored name matches its key, its output
years and media keys are duplicate-free, and its css/media ids are
non-empty. -/
theorem chat_roundtrip (name : String) (chat : Chat)
    (hcn : chat.chat_name = ⟨name⟩)
    (hndO : (chat.output_files.map Prod.fst).Nodup)
    (hndM : ∀ yf ∈ chat.output_files, (yf.2.media_dependencies.map Prod.fst).Nodup)
    (hcss : ∀ yf ∈ chat.output_files, ∀ i, yf.2.css_dependency = some i → i.value ≠ "")
    (hmed : ∀ yf ∈ chat.output_files, ∀ nv ∈ yf.2.media_dependencies, ∀ i,
      nv.2 = some i → i.value ≠ "") :
    ∃ c' : Chat,
      (do
        let co ← jObj? (Chat.to_dictJ chat)
        let msgs ← match dget co "messages" with
          | none => some []
          | some (.arr xs) => xs.mapM (fun mj => jObj? mj >>= decode_messageJ)
          | some _ => none
        let ofs ← match dget co "output_files" with
          | none => some []
          | some v => decode_output_filesJ v
        pure (ChatName.mk name,
          ({ chat_name := ChatName.mk name, messages := msgs,
             output_files := ofs } : Chat))) = some (ChatName.mk name, c') ∧
      Chat.pyEq c' chat = true := by
  have hmsgs : (chat.messages.map Message.to_dictJ).mapM
      (fun mj => jObj? mj >>= decode_messageJ) = some chat.messages :=
    mapM_map_eq_some _ _ _ (fun m _ => message_roundtrip m)
  cases hof : chat.output_files with
  | nil =>
    refine ⟨{ chat_name := ChatName.mk name, messages := chat.messages,
                output_files := [] }, ?_, ?_⟩
    · have h1 : (do
          let co ← jObj? (Chat.to_dictJ chat)
          let msgs ← match dget co "messages" with
            | none => some []
            | some (.arr xs) => xs.mapM (fun mj => jObj? mj >>= decode_messageJ)
            | some _ => none
          let ofs ← match dget co "output_files" with
            | none => some []
            | some v => decode_output_filesJ v
          pure (ChatName.mk name,
            ({ chat_name := ChatName.mk name, messages := msgs,
               output_files := ofs } : Chat))) =
          ((chat.messages.map Message.to_dictJ).mapM
            (fun mj => jObj? mj >>= decode_messageJ)).bind (fun msgs =>
            (decode_output_filesJ (Json.obj (sortKeys (chat.output_files.map
              (fun kv : Nat × OutputFile =>
                (natToStr kv.1, OutputFile.to_dictJ kv.2)))))).bind
            (fun ofs => some (ChatName.mk name,
              ({ chat_name := ChatName.mk name, messages := msgs,
                 output_files := ofs } : Chat)))) := rfl
      rw [h1, hmsgs, hof]
      rfl
    · simp only [Chat.pyEq, Bool.and_eq_true, decide_eq_true_eq]
      refine ⟨⟨hcn.symm, ?_⟩, ?_⟩
      · trivial
      · rw [hof]
        rfl
  | cons o os =>
    have hne : sortKeys ((o :: os).map (fun kv : Nat × OutputFile =>
        (natToStr kv.1, OutputFile.to_dictJ kv.2))) ≠ [] := by
      rw [List.map_cons]
      exact insertKeySorted_ne_nil _ _
    have hfalse : jFalsy (Json.obj (sortKeys ((o :: os).map
        (fun kv : Nat × OutputFile =>
          (natToStr kv.1, OutputFile.to_dictJ kv.2))))) = false := by
      cases hS : sortKeys ((o :: os).map (fun kv : Nat × OutputFile =>
          (natToStr kv.1, OutputFile.to_dictJ kv.2))) with
      | nil => exact absurd hS hne
      | cons a as => rfl
    have hdec : decode_output_filesJ (Json.obj (sortKeys ((o :: os).map
        (fun kv : Nat × OutputFile =>
          (natToStr kv.1, OutputFile.to_dictJ kv.2))))) =
        (sortKeys ((o :: os).map (fun kv : Nat × OutputFile =>
          (natToStr kv.1, OutputFile.to_dictJ kv.2)))).mapM (fun yf => do
          let y ← strToNat? yf.1
          let f ← jObj? yf.2 >>= OutputFile.from_dictJ
          pure (y, f)) := by
      rw [decode_output_filesJ, hfalse]
      rfl
    have hent : ∀ a ∈ sortKeys ((o :: os).map (fun kv : Nat × OutputFile =>
        (natToStr kv.1, OutputFile.to_dictJ kv.2))),
        ∃ b, (do
          let y ← strToNat? a.1
          let f ← jObj? a.2 >>= OutputFile.from_dictJ
          pure (y, f) : Option (Nat × OutputFile)) = some b ∧
        (∃ yf ∈ chat.output_files, a = (natToStr yf.1, OutputFile.to_dictJ yf.2) ∧
          b.1 = yf.1 ∧ OutputFile.pyEq b.2 yf.2 = true) := by
      intro a ha
      rw [mem_sortKeys] at ha
      simp only [List.mem_map] at ha
      obtain ⟨yf, hyf, he⟩ := ha
      have hyf' : yf ∈ chat.output_files := by rw [hof]; exact hyf
      obtain ⟨f', hf', hpy⟩ :=
        outputfile_roundtrip yf.2 (hndM yf hyf') (hmed yf hyf') (hcss yf hyf')
      refine ⟨(yf.1, f'), ?_, yf, hyf', he.symm, rfl, hpy⟩
      rw [← he]
      show (strToNat? (natToStr yf.1)).bind (fun y =>
        (jObj? (OutputFile.to_dictJ yf.2) >>= OutputFile.from_dictJ).bind
          (fun f => some (y, f))) = some (yf.1, f')
      rw [strToNat_natToStr, hf']
      rfl
    obtain ⟨ofs', hofs', hofsF⟩ := mapM_exists_forall2
      (fun yf : String × Json => do
        let y ← strToNat? yf.1
        let f ← jObj? yf.2 >>= OutputFile.from_dictJ
        pure (y, f))
      (fun b a => ∃ yf ∈ chat.output_files,
        a = (natToStr yf.1, OutputFile.to_dictJ yf.2) ∧
        b.1 = yf.1 ∧ OutputFile.pyEq b.2 yf.2 = true)
      (sortKeys ((o :: os).map (fun kv : Nat × OutputFile =>
        (natToStr kv.1, OutputFile.to_dictJ kv.2)))) hent
    have hdeq : deqBy OutputFile.pyEq ofs' chat.output_files = true := by
      refine deqBy_true_intro _ _ _ hndO ?_ ?_
      · intro b hb
        obtain ⟨a, _, yf, hyf, _, hb1, hpy⟩ := forall2_mem_left hofsF b hb
        exact ⟨yf, hyf, hb1, hpy⟩
      · intro yf hyf
        have ha : (natToStr yf.1, OutputFile.to_dictJ yf.2) ∈
            sortKeys ((o :: os).map (fun kv : Nat × OutputFile =>
              (natToStr kv.1, OutputFile.to_dictJ kv.2))) := by
          rw [mem_sortKeys]
          refine List.mem_map.mpr ⟨yf, ?_, rfl⟩
          rw [← hof]; exact hyf
        obtain ⟨b, hb, yf2, hyf2, ha2, hb1, _⟩ := forall2_mem_right hofsF _ ha
        rw [Prod.mk.injEq] at ha2
        refine ⟨b, hb, ?_⟩
        rw [hb1]
        exact natToStr_inj ha2.1.symm
    refine ⟨{ chat_name := ChatName.mk name, messages := chat.messages,
                output_files := ofs' }, ?_, ?_⟩
    · have h1 : (do
          let co ← jObj? (Chat.to_dictJ chat)
          let msgs ← match dget co "messages" with
            | none => some []
            | some (.arr xs) => xs.mapM (fun mj => jObj? mj >>= decode_messageJ)
            | some _ => none
          let ofs ← match dget co "output_files" with
            | none => some []
            | some v => decode_output_filesJ v
          pure (ChatName.mk name,
            ({ chat_name := ChatName.mk name, messages := msgs,
               output_files := ofs } : Chat))) =
          ((chat.messages.map Message.to_dictJ).mapM
            (fun mj => jObj? mj >>= decode_messageJ)).bind (fun msgs =>
            (decode_output_filesJ (Json.obj (sortKeys (chat.output_files.map
              (fun kv : Nat × OutputFile =>
                (natToStr kv.1, OutputFile.to_dictJ kv.2)))))).bind
            (fun ofs => some (ChatName.mk name,
              ({ chat_name := ChatName.mk name, messages := msgs,
                 output_files := ofs } : Chat)))) := rfl
      rw [h1, hmsgs, hof, hdec, hofs']
      rfl
    · simp only [Chat.pyEq, Bool.and_eq_true, decide_eq_true_eq]
      exact ⟨⟨hcn.symm, trivial⟩, hdeq⟩

/-- C2 (counterexample): the pipeline state `exRunC5` (run timestamp
`"t"`) does not survive the round-trip — `to_json` never serializes the
`timestamp` field and `from_json` always restores the default, so the
decoded value is not Python-equal to the original. -/
theorem c2_roundtrip_counterexample :
    (ChatData.from_jsonValue (ChatData.to_jsonValue exRunC5)).map
      (fun cd' => ChatData.pyEq cd' exRunC5) = some false := by decide

/-- C2 (amended: every field except `timestamp` survives): for a
`ChatData` whose chat keys, input-file keys, per-chat output years and
per-output media keys are duplicate-free, whose stored chat names match
their keys, and whose parent-zip/css/media ids are non-empty strings —
invariants of the states the pipeline serializes — `to_json` followed by
`from_json` yields a `ChatData` that is Python-equal to the original with
its `timestamp` reset to the default.  The `timestamp` itself is not
serialized and therefore not preserved. -/
theorem c2_roundtrip (cd : ChatData)
    (hndC : (cd.chats.map Prod.fst).Nodup)
    (hndI : (cd.input_files.map Prod.fst).Nodup)
    (hcn : ∀ kv ∈ cd.chats, kv.2.chat_name = kv.1)
    (hndO : ∀ kv ∈ cd.chats, (kv.2.output_files.map Prod.fst).Nodup)
    (hndM : ∀ kv ∈ cd.chats, ∀ yf ∈ kv.2.output_files,
      (yf.2.media_dependencies.map Prod.fst).Nodup)
    (hpz : ∀ kv ∈ cd.input_files, ∀ z, kv.2.parent_zip = some z → z.value ≠ "")
    (hcss : ∀ kv ∈ cd.chats, ∀ yf ∈ kv.2.output_files, ∀ i,
      yf.2.css_dependency = some i → i.value ≠ "")
    (hmed : ∀ kv ∈ cd.chats, ∀ yf ∈ kv.2.output_files,
      ∀ nv ∈ yf.2.media_dependencies, ∀ i, nv.2 = some i → i.value ≠ "") :
    ∃ cd', ChatData.from_jsonValue (ChatData.to_jsonValue cd) = some cd' ∧
      ChatData.pyEq cd' { cd with timestamp := "1970-01-01T00:00:00" } = true := by
  have hIFent : ∀ a ∈ sortKeys (cd.input_files.map
      (fun kv : ChatFileID × ChatFile => (kv.1.value, kv.2.to_dictJ))),
      ∃ b, (do
        let f ← jObj? a.2 >>= ChatFile.from_dictJ
        pure (ChatFileID.mk a.1, f) : Option (ChatFileID × ChatFile)) = some b ∧
      (∃ kv ∈ cd.input_files, a = (kv.1.value, kv.2.to_dictJ) ∧ b = kv) := by
    intro a ha
    rw [mem_sortKeys] at ha
    simp only [List.mem_map] at ha
    obtain ⟨kv, hkv, he⟩ := ha
    refine ⟨kv, ?_, kv, hkv, he.symm, rfl⟩
    rw [← he]
    show (jObj? (ChatFile.to_dictJ kv.2) >>= ChatFile.from_dictJ).bind
      (fun f => some (ChatFileID.mk kv.1.value, f)) = some kv
    rw [chatfile_roundtrip kv.2 (hpz kv hkv), chatFileID_mk_value]
    rfl
  obtain ⟨I, hI, hIFr⟩ := mapM_exists_forall2
    (fun kv : String × Json => do
      let f ← jObj? kv.2 >>= ChatFile.from_dictJ
      pure (ChatFileID.mk kv.1, f))
    (fun b a => ∃ kv ∈ cd.input_files, a = (kv.1.value, kv.2.to_dictJ) ∧ b = kv)
    (sortKeys (cd.input_files.map (fun kv : ChatFileID × ChatFile =>
      (kv.1.value, kv.2.to_dictJ)))) hIFent
  have hCent : ∀ a ∈ sortKeys (cd.chats.map
      (fun kv : ChatName × Chat => (kv.1.name, kv.2.to_dictJ))),
      ∃ b, ((do
        let co ← jObj? a.2
        let msgs ← match dget co "messages" with
          | none => some []
          | some (.arr xs) => xs.mapM (fun mj => jObj? mj >>= decode_messageJ)
          | some _ => none
        let ofs ← match dget co "output_files" with
          | none => some []
          | some v => decode_output_filesJ v
        pure (ChatName.mk a.1,
          ({ chat_name := ChatName.mk a.1, messages := msgs,
             output_files := ofs } : Chat))) :
        Option (ChatName × Chat)) = some b ∧
      (∃ kv ∈ cd.chats, a = (kv.1.name, kv.2.to_dictJ) ∧
        b.1 = kv.1 ∧ Chat.pyEq b.2 kv.2 = true) := by
    intro a ha
    rw [mem_sortKeys] at ha
    simp only [List.mem_map] at ha
    obtain ⟨kv, hkv, he⟩ := ha
    have hcn' : kv.2.chat_name = ⟨kv.1.name⟩ := by
      rw [hcn kv hkv]
    obtain ⟨c', hc', hpy⟩ := chat_roundtrip kv.1.name kv.2 hcn'
      (hndO kv hkv) (hndM kv hkv) (hcss kv hkv) (hmed kv hkv)
    refine ⟨(ChatName.mk kv.1.name, c'), ?_, kv, hkv, he.symm, ?_, hpy⟩
    · rw [← he]
      exact hc'
    · exact chatName_mk_name kv.1
  obtain ⟨C, hC, hCFr⟩ := mapM_exists_forall2
    (fun kv : String × Json => do
      let co ← jObj? kv.2
      let msgs ← match dget co "messages" with
        | none => some []
        | some (.arr xs) => xs.mapM (fun mj => jObj? mj >>= decode_messageJ)
        | some _ => none
      let ofs ← match dget co "output_files" with
        | none => some []
        | some v => decode_output_filesJ v
      pure (ChatName.mk kv.1,
        ({ chat_name := ChatName.mk kv.1, messages := msgs,
           output_files := ofs } : Chat)))
    (fun b a => ∃ kv ∈ cd.chats, a = (kv.1.name, kv.2.to_dictJ) ∧
      b.1 = kv.1 ∧ Chat.pyEq b.2 kv.2 = true)
    (sortKeys (cd.chats.map (fun kv : ChatName × Chat =>
      (kv.1.name, kv.2.to_dictJ)))) hCent
  refine ⟨{ chats := C, timestamp := "1970-01-01T00:00:00", input_files := I },
    ?_, ?_⟩
  · rw [show ChatData.from_jsonValue (ChatData.to_jsonValue cd) =
      ((sortKeys (cd.input_files.map (fun kv : ChatFileID × ChatFile =>
          (kv.1.value, kv.2.to_dictJ)))).mapM (fun kv : String × Json => do
            let f ← jObj? kv.2 >>= ChatFile.from_dictJ
            pure (ChatFileID.mk kv.1, f))).bind (fun input_files =>
        ((sortKeys (cd.chats.map (fun kv : ChatName × Chat =>
            (kv.1.name, kv.2.to_dictJ)))).mapM (fun kv : String × Json => do
              let co ← jObj? kv.2
              let msgs ← match dget co "messages" with
                | none => some []
                | some (.arr xs) => xs.mapM (fun mj => jObj? mj >>= decode_messageJ)
                | some _ => none
              let ofs ← match dget co "output_files" with
                | none => some []
                | some v => decode_output_filesJ v
              pure (ChatName.mk kv.1,
                ({ chat_name := ChatName.mk kv.1, messages := msgs,
                   output_files := ofs } : Chat)))).bind (fun chats =>
          some { chats := chats, timestamp := "1970-01-01T00:00:00",
                 input_files := input_files })) from rfl, hI, hC]
    rfl
  · simp only [ChatData.pyEq, Bool.and_eq_true, decide_eq_true_eq]
    refine ⟨⟨?_, trivial⟩, ?_⟩
    · show deqBy Chat.pyEq C cd.chats = true
      refine deqBy_true_intro _ _ _ hndC ?_ ?_
      · intro b hb
        obtain ⟨a, _, kv, hkv, _, hb1, hpy⟩ := forall2_mem_left hCFr b hb
        exact ⟨kv, hkv, hb1, hpy⟩
      · intro kv hkv
        have ha : (kv.1.name, Chat.to_dictJ kv.2) ∈ sortKeys (cd.chats.map
            (fun kv : ChatName × Chat => (kv.1.name, kv.2.to_dictJ))) := by
          rw [mem_sortKeys]
          exact List.mem_map.mpr ⟨kv, hkv, rfl⟩
        obtain ⟨b, hb, kv2, hkv2, ha2, hb1, _⟩ := forall2_mem_right hCFr _ ha
        rw [Prod.mk.injEq] at ha2
        refine ⟨b, hb, ?_⟩
        rw [hb1, ← chatName_mk_name kv2.1, ← ha2.1]
    · show deqBy (fun x y => x = y) I cd.input_files = true
      refine deqBy_true_intro _ _ _ hndI ?_ ?_
      · intro b hb
        obtain ⟨a, _, kv, hkv, _, hbkv⟩ := forall2_mem_left hIFr b hb
        refine ⟨kv, hkv, ?_, ?_⟩
        · rw [hbkv]
        · rw [hbkv]; simp
      · intro kv hkv
        have ha : (kv.1.value, ChatFile.to_dictJ kv.2) ∈ sortKeys (cd.input_files.map
            (fun kv : ChatFileID × ChatFile => (kv.1.value, kv.2.to_dictJ))) := by
          rw [mem_sortKeys]
          exact List.mem_map.mpr ⟨kv, hkv, rfl⟩
        obtain ⟨b, hb, kv2, hkv2, ha2, hbkv2⟩ := forall2_mem_right hIFr _ ha
        rw [Prod.mk.injEq] at ha2
        refine ⟨b, hb, ?_⟩
        rw [hbkv2, ← chatFileID_mk_value kv2.1, ← ha2.1]

/-- C2 witness: the amended round-trip theorem applied to the concrete
pipeline state `exRunC5`, whose well-formedness hypotheses all hold. -/
theorem c2_roundtrip_witness :
    ((exRunC5.chats.map Prod.fst).Nodup ∧
      (exRunC5.input_files.map Prod.fst).Nodup ∧
      (∀ kv ∈ exRunC5.chats, kv.2.chat_name = kv.1)) ∧
    ∃ cd', ChatData.from_jsonValue (ChatData.to_jsonValue exRunC5) = some cd' ∧
      ChatData.pyEq cd' { exRunC5 with timestamp := "1970-01-01T00:00:00" } = true :=
  ⟨⟨by decide, by decide, by decide⟩,
    c2_roundtrip exRunC5 (by decide) (by decide) (by decide) (by decide)
      (by decide) (by decide) (by decide) (by decide)⟩

/-! ## C5: referential integrity of `input_files` (runs from empty state) -/

theorem dget_isSome_dput {κ β : Type} [DecidableEq κ] (d : List (κ × β)) (k k' : κ)
    (v : β) (h : (dget d k).isSome = true) : (dget (dput d k' v) k).isSome = true := by
  by_cases hk : k = k'
  · subst hk; rw [dget_dput_self]; rfl
  · rw [dget_dput_ne _ _ _ _ hk]; exact h

theorem dget_isSome_dput_self {κ β : Type} [DecidableEq κ] (d : List (κ × β)) (k : κ)
    (v : β) : (dget (dput d k v) k).isSome = true := by
  rw [dget_dput_self]; rfl

theorem mem_insertByMtime (t x : Tup) (l : List Tup) :
    x ∈ insertByMtime t l ↔ x = t ∨ x ∈ l := by
  induction l with
  | nil => simp [insertByMtime]
  | cons u us ih =>
    by_cases h : t.1 ≤ u.1
    · simp [insertByMtime, h]
    · simp [insertByMtime, h, ih]
      tauto

theorem mem_pySortByMtime (x : Tup) (l : List Tup) :
    x ∈ pySortByMtime l ↔ x ∈ l := by
  induction l with
  | nil => simp [pySortByMtime]
  | cons t rest ih =>
    rw [pySortByMtime, List.foldr_cons]
    rw [mem_insertByMtime]
    rw [show List.foldr insertByMtime [] rest = pySortByMtime rest from rfl, ih]
    simp

theorem parse_foldl_fileids (f : ChatFile) (rest : List String) :
    ∀ (msgs0 : List Message) (cur : RawChatLine) (cls : List String),
      (∀ m ∈ msgs0, m.input_file_id = f.id) →
      ∀ m ∈ (rest.foldl (parseFoldStep f) (msgs0, cur, cls)).1,
        m.input_file_id = f.id := by
  induction rest with
  | nil => intro msgs0 cur cls h m hm; exact h m hm
  | cons line rest' ih =>
    intro msgs0 cur cls h m hm
    rw [List.foldl_cons] at hm
    cases hp : parse_chat_line line with
    | some nxt =>
      simp only [parseFoldStep, hp] at hm
      refine ih _ nxt [nxt.content] ?_ m hm
      intro m' hm'
      rcases List.mem_append.mp hm' with h' | h'
      · exact h m' h'
      · rcases List.mem_singleton.mp h' with rfl
        exact raw_to_message_fileid _ f
    | none =>
      simp only [parseFoldStep, hp] at hm
      exact ih _ cur (cls ++ [line]) h m hm

theorem parse_chat_lines_fileids (lines : List String) (f : ChatFile) (c : Chat)
    (h : parse_chat_lines lines f = some c) :
    ∀ m ∈ c.messages, m.input_file_id = f.id := by
  match lines with
  | [] => simp [parse_chat_lines] at h
  | l0 :: rest =>
    rw [parse_chat_lines] at h
    cases hp : parse_chat_line l0 with
    | none => rw [hp] at h; simp at h
    | some first =>
      rw [hp] at h
      simp only [Option.some.injEq] at h
      intro m hm
      rw [← h] at hm
      simp only at hm
      rcases List.mem_append.mp hm with h' | h'
      · exact parse_foldl_fileids f rest [] first [first.content] (by simp) m h'
      · rcases List.mem_singleton.mp h' with rfl
        exact raw_to_message_fileid _ f

theorem parse_chat_file_fileids (vfs : VFS) (f : ChatFile) (c : Chat)
    (h : parse_chat_file vfs f = some c) :
    ∀ m ∈ c.messages, m.input_file_id = f.id := by
  rw [parse_chat_file] at h
  cases ho : vfs.open_file f with
  | none => rw [ho] at h; simp at h
  | some content =>
    rw [ho] at h
    dsimp only at h
    by_cases he : (pySplitLines content).isEmpty
    · rw [if_pos he] at h; simp at h
    · rw [if_neg he] at h
      exact parse_chat_lines_fileids _ f c h

/-- The tuple well-formedness carried through `collectNewFiles` starting
from an empty accumulator: each tuple's messages reference the tuple's
file. -/
theorem collectNewFiles_fileids (vfs : VFS) (files : List ChatFile) :
    ∀ acc : List (ChatName × List Tup),
      (∀ kv ∈ acc, ∀ t ∈ kv.2, ∀ m ∈ t.2.2.messages, m.input_file_id = t.2.1.id) →
      ∀ kv ∈ files.foldl (fun acc file =>
          if basename file.path = "_chat.txt" ∧ file.exists_ then
            if anyTupleId acc file.id then acc
            else
              match parse_chat_file vfs file with
              | some chat =>
                  let acc := if dmem acc chat.chat_name then acc
                    else dput acc chat.chat_name []
                  dput acc chat.chat_name
                    (((dget acc chat.chat_name).getD []) ++
                      [(file.modification_timestamp, file, chat)])
              | none => acc
          else acc) acc,
        ∀ t ∈ kv.2, ∀ m ∈ t.2.2.messages, m.input_file_id = t.2.1.id := by
  induction files with
  | nil => intro acc h kv hkv; exact h kv hkv
  | cons file rest ih =>
    intro acc h kv hkv
    rw [List.foldl_cons] at hkv
    refine ih _ ?_ kv hkv
    by_cases hc : basename file.path = "_chat.txt" ∧ file.exists_
    · rw [if_pos hc]
      by_cases ha : anyTupleId acc file.id
      · rw [if_pos ha]; exact h
      · rw [if_neg ha]
        cases hp : parse_chat_file vfs file with
        | none => exact h
        | some chat =>
          dsimp only
          set acc' := if dmem acc chat.chat_name then acc
            else dput acc chat.chat_name [] with hacc'
          have h' : ∀ kv' ∈ acc', ∀ t ∈ kv'.2, ∀ m ∈ t.2.2.messages,
              m.input_file_id = t.2.1.id := by
            rw [hacc']
            by_cases hd : dmem acc chat.chat_name
            · rw [if_pos hd]; exact h
            · rw [if_neg hd]
              intro kv' hkv'
              rcases mem_dput _ _ _ _ hkv' with h1 | h1
              · rw [h1]; intro t ht; simp at ht
              · exact h kv' h1
          intro kv' hkv'
          rcases mem_dput _ _ _ _ hkv' with h1 | h1
          · rw [h1]
            intro t ht
            rcases List.mem_append.mp ht with h2 | h2
            · cases hg : dget acc' chat.chat_name with
              | none => rw [hg] at h2; simp at h2
              | some lst =>
                rw [hg] at h2
                exact h' _ (dget_eq_some_mem hg) t h2
            · rcases List.mem_singleton.mp h2 with rfl
              exact parse_chat_file_fileids vfs file chat hp
          · exact h' kv' h1
    · rw [if_neg hc]; exact h

theorem collectNewFiles_fileids' (vfs : VFS) :
    ∀ kv ∈ collectNewFiles vfs [],
      ∀ t ∈ kv.2, ∀ m ∈ t.2.2.messages, m.input_file_id = t.2.1.id := by
  intro kv hkv
  exact collectNewFiles_fileids vfs (dvalues vfs.files_by_path) []
    (by intro kv' h'; simp at h') kv hkv

/-- Through one chat's merge, every combined message's file id is a stored
key of the resulting `input_files`. -/
theorem mergeFold_fileids (l : List Tup)
    (hl : ∀ t ∈ l, ∀ m ∈ t.2.2.messages, m.input_file_id = t.2.1.id) :
    ∀ st : List (ChatFileID × ChatFile) × List String × List Message,
      (∀ m ∈ st.2.2, (dget st.1 m.input_file_id).isSome = true) →
      ∀ m ∈ (l.foldl mergeStep st).2.2,
        (dget (l.foldl mergeStep st).1 m.input_file_id).isSome = true := by
  induction l with
  | nil => intro st h m hm; exact h m hm
  | cons t rest ih =>
    intro st h m hm
    rw [List.foldl_cons] at hm ⊢
    refine ih (fun t' ht' => hl t' (List.mem_cons_of_mem _ ht')) _ ?_ m hm
    intro m' hm'
    show (dget (dput st.1 t.2.1.id t.2.1) m'.input_file_id).isSome = true
    obtain ⟨l', hdl, hls⟩ := dedupStep_sublist t.2.2.messages (st.2.1, st.2.2)
    have hm'' : m' ∈ (dedupStep (st.2.1, st.2.2) t.2.2.messages).2 := hm'
    rw [hdl] at hm''
    rcases List.mem_append.mp hm'' with h1 | h1
    · exact dget_isSome_dput _ _ _ _ (h m' h1)
    · have : m'.input_file_id = t.2.1.id :=
        hl t (List.mem_cons_self _ _) m' (hls.subset h1)
      rw [this]
      exact dget_isSome_dput_self _ _ _

theorem mergeChatTuples_fileids (inf : List (ChatFileID × ChatFile)) (tuples : List Tup)
    (ht : ∀ t ∈ tuples, ∀ m ∈ t.2.2.messages, m.input_file_id = t.2.1.id)
    (m : Message) (hm : m ∈ (mergeChatTuples inf tuples).2) :
    (dget (mergeChatTuples inf tuples).1 m.input_file_id).isSome = true := by
  rw [mergeChatTuples] at hm ⊢
  exact mergeFold_fileids (pySortByMtime tuples)
    (fun t ht' => ht t ((mem_pySortByMtime t tuples).mp ht'))
    (inf, [], []) (by intro m' hm'; simp at hm') m hm

/-- Elements of a `dput` fold come from the initial dict or the folded
list. -/
theorem mem_foldl_dput {κ β : Type} [DecidableEq κ] (l : List (κ × β))
    (d0 : List (κ × β)) (kv : κ × β)
    (h : kv ∈ l.foldl (fun d kv2 => dput d kv2.1 kv2.2) d0) :
    kv ∈ d0 ∨ kv ∈ l := by
  induction l generalizing d0 with
  | nil => exact Or.inl h
  | cons a rest ih =>
    rw [List.foldl_cons] at h
    rcases ih _ h with h' | h'
    · rcases mem_dput _ _ _ _ h' with h'' | h''
      · right; rw [h'']; exact List.mem_cons_self _ _
      · exact Or.inl h''
    · right; exact List.mem_cons_of_mem _ h'

/-- Properties of the per-year output files built by `plannedChat`. -/
theorem plannedChat_outputs (css : ChatFile) (chat : Chat) :
    ∀ yf ∈ (plannedChat css chat).output_files,
      yf.2.media_dependencies = [] ∧ yf.2.css_dependency = some css.id ∧
      ∀ i ∈ yf.2.chat_dependencies, ∃ m ∈ chat.messages, m.input_file_id = i := by
  have hdeps : ∀ (l : List Message), (∀ m ∈ l, m ∈ chat.messages) →
      ∀ st : List Nat × List (Nat × List ChatFileID),
      (∀ yd ∈ st.2, ∀ i ∈ yd.2, ∃ m ∈ chat.messages, m.input_file_id = i) →
      ∀ yd ∈ (l.foldl (fun (st : List Nat × List (Nat × List ChatFileID)) msg =>
          (sadd st.1 msg.year,
           if msg.input_file_id.value ≠ "" then
             dput st.2 msg.year (sadd ((dget st.2 msg.year).getD []) msg.input_file_id)
           else st.2)) st).2,
        ∀ i ∈ yd.2, ∃ m ∈ chat.messages, m.input_file_id = i := by
    intro l
    induction l with
    | nil => intro _ st h yd hyd; exact h yd hyd
    | cons msg rest ih =>
      intro hl st h yd hyd
      rw [List.foldl_cons] at hyd
      refine ih (fun m hm => hl m (List.mem_cons_of_mem _ hm)) _ ?_ yd hyd
      by_cases hv : msg.input_file_id.value ≠ ""
      · dsimp only
        rw [if_pos hv]
        intro yd' hyd'
        rcases mem_dput _ _ _ _ hyd' with h1 | h1
        · rw [h1]
          intro i hi
          rcases (mem_sadd _ _ _).mp hi with h2 | h2
          · cases hg : dget st.2 msg.year with
            | none => rw [hg] at h2; simp at h2
            | some lst =>
                rw [hg] at h2
                exact h _ (dget_eq_some_mem hg) i h2
          · exact ⟨msg, hl msg (List.mem_cons_self _ _), h2.symm⟩
        · exact h yd' h1
      · dsimp only
        rw [if_neg hv]
        exact h
  intro yf hyf
  rw [plannedChat] at hyf
  dsimp only at hyf
  have hout : ∀ (years : List Nat) (deps : List (Nat × List ChatFileID))
      (hd : ∀ yd ∈ deps, ∀ i ∈ yd.2, ∃ m ∈ chat.messages, m.input_file_id = i)
      (ofs0 : List (Nat × OutputFile))
      (h0 : ∀ yf' ∈ ofs0, yf'.2.media_dependencies = [] ∧
        yf'.2.css_dependency = some css.id ∧
        ∀ i ∈ yf'.2.chat_dependencies, ∃ m ∈ chat.messages, m.input_file_id = i),
      ∀ yf' ∈ years.foldl (fun ofs year =>
        dput ofs year
          { year := year, generate := false, media_dependencies := [],
            chat_dependencies := (dget deps year).getD [],
            css_dependency := some css.id }) ofs0,
        yf'.2.media_dependencies = [] ∧ yf'.2.css_dependency = some css.id ∧
        ∀ i ∈ yf'.2.chat_dependencies, ∃ m ∈ chat.messages, m.input_file_id = i := by
    intro years
    induction years with
    | nil => intro deps hd ofs0 h0 yf' hyf'; exact h0 yf' hyf'
    | cons y rest ih =>
      intro deps hd ofs0 h0 yf' hyf'
      rw [List.foldl_cons] at hyf'
      refine ih deps hd _ ?_ yf' hyf'
      intro yf'' hyf''
      rcases mem_dput _ _ _ _ hyf'' with h1 | h1
      · rw [h1]
        refine ⟨rfl, rfl, ?_⟩
        intro i hi
        simp only at hi
        cases hg : dget deps y with
        | none => rw [hg] at hi; simp at hi
        | some lst =>
            rw [hg] at hi
            exact hd _ (dget_eq_some_mem hg) i hi
      · exact h0 yf'' h1
  exact hout _ _
    (hdeps chat.messages (fun m hm => hm) ([], []) (by intro yd h; simp at h))
    [] (by intro yf' h; simp at h) yf hyf

/-- `plannedChat` keeps the messages. -/
theorem plannedChat_messages (css : ChatFile) (chat : Chat) :
    (plannedChat css chat).messages = chat.messages := rfl

/-- Every `some` media id recorded by `locateMedia` belongs to a handle in
its found-media list. -/
theorem locateMedia_found (vfs : VFS) (chat : Chat) :
    ∀ yd ∈ (locateMedia vfs chat).1, ∀ nv ∈ yd.2, ∀ i, nv.2 = some i →
      ∃ mf ∈ (locateMedia vfs chat).2, mf.id = i := by
  have main : ∀ (l : List Message)
      (mst : List (Nat × List (String × Option ChatFileID)) × List ChatFile),
      (∀ yd ∈ mst.1, ∀ nv ∈ yd.2, ∀ i, nv.2 = some i →
        ∃ mf ∈ mst.2, mf.id = i) →
      ∀ yd ∈ (l.foldl (fun mst msg =>
          match msg.media_name with
          | none => mst
          | some media_name =>
            let year := msg.year
            let media_by_year := if dmem mst.1 year then mst.1 else dput mst.1 year []
            if dmem ((dget media_by_year year).getD []) media_name then
              (media_by_year, mst.2)
            else
              match vfs.get_by_id msg.input_file_id with
              | none => (media_by_year, mst.2)
              | some chat_file =>
                let media_file := find_media_file vfs media_name chat_file.path
                let media_by_year := dput media_by_year year
                  (dput ((dget media_by_year year).getD []) media_name
                    (media_file.map ChatFile.id))
                let found := match media_file with
                  | some mf => mst.2 ++ [mf]
                  | none => mst.2
                (media_by_year, found)) mst).1,
        ∀ nv ∈ yd.2, ∀ i, nv.2 = some i →
          ∃ mf ∈ (l.foldl (fun mst msg =>
            match msg.media_name with
            | none => mst
            | some media_name =>
              let year := msg.year
              let media_by_year := if dmem mst.1 year then mst.1 else dput mst.1 year []
              if dmem ((dget media_by_year year).getD []) media_name then
                (media_by_year, mst.2)
              else
                match vfs.get_by_id msg.input_file_id with
                | none => (media_by_year, mst.2)
                | some chat_file =>
                  let media_file := find_media_file vfs media_name chat_file.path
                  let media_by_year := dput media_by_year year
                    (dput ((dget media_by_year year).getD []) media_name
                      (media_file.map ChatFile.id))
                  let found := match media_file with
                    | some mf => mst.2 ++ [mf]
                    | none => mst.2
                  (media_by_year, found)) mst).2, mf.id = i := by
    intro l
    induction l with
    | nil => intro mst h yd hyd; exact h yd hyd
    | cons msg rest ih =>
      intro mst h yd hyd
      rw [List.foldl_cons] at hyd ⊢
      refine ih _ ?_ yd hyd
      cases hmn : msg.media_name with
      | none => simpa [hmn] using h
      | some media_name =>
        simp only [hmn]
        set mby := if dmem mst.1 msg.year then mst.1 else dput mst.1 msg.year [] with hmby
        have hmby_ok : ∀ yd' ∈ mby, ∀ nv ∈ yd'.2, ∀ i, nv.2 = some i →
            ∃ mf ∈ mst.2, mf.id = i := by
          rw [hmby]
          by_cases hd : dmem mst.1 msg.year
          · rw [if_pos hd]; exact h
          · rw [if_neg hd]
            intro yd' hyd'
            rcases mem_dput _ _ _ _ hyd' with h1 | h1
            · rw [h1]; intro nv hnv; simp at hnv
            · exact h yd' h1
        by_cases hseen : dmem ((dget mby msg.year).getD []) media_name
        · simp only [hseen, if_true]
          exact hmby_ok
        · simp only [hseen, Bool.false_eq_true, if_false]
          cases hgid : vfs.get_by_id msg.input_file_id with
          | none => exact hmby_ok
          | some chat_file =>
            dsimp only
            cases hmf : find_media_file vfs media_name chat_file.path with
            | none =>
              simp only [hmf, Option.map_none']
              intro yd' hyd'
              rcases mem_dput _ _ _ _ hyd' with h1 | h1
              · rw [h1]
                intro nv hnv i hi
                rcases mem_dput _ _ _ _ hnv with h2 | h2
                · rw [h2] at hi; simp at hi
                · cases hg : dget mby msg.year with
                  | none => rw [hg] at h2; simp at h2
                  | some lst =>
                      rw [hg] at h2
                      exact hmby_ok _ (dget_eq_some_mem hg) _ h2 i hi
              · exact hmby_ok yd' h1
            | some mf =>
              simp only [hmf, Option.map_some']
              intro yd' hyd'
              rcases mem_dput _ _ _ _ hyd' with h1 | h1
              · rw [h1]
                intro nv hnv i hi
                rcases mem_dput _ _ _ _ hnv with h2 | h2
                · rw [h2] at hi
                  simp only at hi
                  refine ⟨mf, ?_, Option.some.inj hi⟩
                  simp
                · cases hg : dget mby msg.year with
                  | none => rw [hg] at h2; simp at h2
                  | some lst =>
                      rw [hg] at h2
                      obtain ⟨mf', hmf', hid⟩ :=
                        hmby_ok _ (dget_eq_some_mem hg) _ h2 i hi
                      exact ⟨mf', by simp [hmf'], hid⟩
              · intro nv hnv i hi
                obtain ⟨mf', hmf', hid⟩ := hmby_ok yd' h1 nv hnv i hi
                exact ⟨mf', by simp [hmf'], hid⟩
  intro yd hyd nv hnv i hi
  rw [locateMedia] at hyd
  exact main chat.messages ([], []) (by intro yd' h'; simp at h') yd hyd nv hnv i hi

/-- The output files of `mediaChat`: dependencies other than
`media_dependencies` are untouched, and every media entry comes from the
original output file or from `locateMedia`. -/
theorem mediaChat_outputs (vfs : VFS) (chat : Chat) :
    ∀ yf ∈ (mediaChat vfs chat).output_files,
      ∃ yf₀ ∈ chat.output_files,
        yf.2.chat_dependencies = yf₀.2.chat_dependencies ∧
        yf.2.css_dependency = yf₀.2.css_dependency ∧
        ∀ nv ∈ yf.2.media_dependencies, nv ∈ yf₀.2.media_dependencies ∨
          ∃ yd ∈ (locateMedia vfs chat).1, nv ∈ yd.2 := by
  have main : ∀ (l : List (Nat × List (String × Option ChatFileID)))
      (hl : ∀ yd ∈ l, yd ∈ (locateMedia vfs chat).1)
      (ofs0 : List (Nat × OutputFile))
      (h0 : ∀ yf ∈ ofs0, ∃ yf₀ ∈ chat.output_files,
        yf.2.chat_dependencies = yf₀.2.chat_dependencies ∧
        yf.2.css_dependency = yf₀.2.css_dependency ∧
        ∀ nv ∈ yf.2.media_dependencies, nv ∈ yf₀.2.media_dependencies ∨
          ∃ yd ∈ (locateMedia vfs chat).1, nv ∈ yd.2),
      ∀ yf ∈ l.foldl (fun ofs yd =>
        match dget ofs yd.1 with
        | some output_file =>
            dput ofs yd.1
              { output_file with
                media_dependencies := yd.2.foldl
                  (fun d kv2 => dput d kv2.1 kv2.2) output_file.media_dependencies }
        | none => ofs) ofs0,
        ∃ yf₀ ∈ chat.output_files,
          yf.2.chat_dependencies = yf₀.2.chat_dependencies ∧
          yf.2.css_dependency = yf₀.2.css_dependency ∧
          ∀ nv ∈ yf.2.media_dependencies, nv ∈ yf₀.2.media_dependencies ∨
            ∃ yd ∈ (locateMedia vfs chat).1, nv ∈ yd.2 := by
    intro l
    induction l with
    | nil => intro _ ofs0 h0 yf hyf; exact h0 yf hyf
    | cons yd rest ih =>
      intro hl ofs0 h0 yf hyf
      rw [List.foldl_cons] at hyf
      refine ih (fun yd' hyd' => hl yd' (List.mem_cons_of_mem _ hyd')) _ ?_ yf hyf
      cases hg : dget ofs0 yd.1 with
      | none => exact h0
      | some output_file =>
        intro yf' hyf'
        rcases mem_dput _ _ _ _ hyf' with h1 | h1
        · obtain ⟨yf₀, hyf₀, hcd, hcss, hmedia⟩ :=
            h0 _ (dget_eq_some_mem hg)
          refine ⟨yf₀, hyf₀, ?_, ?_, ?_⟩
          · rw [h1]; exact hcd
          · rw [h1]; exact hcss
          · rw [h1]
            intro nv hnv
            simp only at hnv
            rcases mem_foldl_dput _ _ _ hnv with h2 | h2
            · exact hmedia nv h2
            · exact Or.inr ⟨yd, hl yd (List.mem_cons_self _ _), h2⟩
        · exact h0 yf' h1
  intro yf hyf
  rw [mediaChat] at hyf
  simp only at hyf
  refine main _ (fun yd hyd => hyd) chat.output_files ?_ yf hyf
  intro yf' hyf'
  exact ⟨yf', hyf', rfl, rfl, fun nv hnv => Or.inl hnv⟩

/-- `mediaChat` keeps the messages. -/
theorem mediaChat_messages (vfs : VFS) (chat : Chat) :
    (mediaChat vfs chat).messages = chat.messages := rfl

/-- `checkedChat` keeps the messages. -/
theorem checkedChat_messages (old : ChatData) (cn : ChatName) (chat : Chat) :
    (checkedChat old cn chat).messages = chat.messages := rfl

/-- The output files of `checkedChat`: only the `generate` flag changes. -/
theorem checkedChat_outputs (old : ChatData) (cn : ChatName) (chat : Chat) :
    ∀ yf ∈ (checkedChat old cn chat).output_files,
      ∃ yf₀ ∈ chat.output_files,
        yf.2.chat_dependencies = yf₀.2.chat_dependencies ∧
        yf.2.media_dependencies = yf₀.2.media_dependencies ∧
        yf.2.css_dependency = yf₀.2.css_dependency := by
  intro yf hyf
  rw [checkedChat] at hyf
  simp only [List.mem_map] at hyf
  obtain ⟨yf₀, hyf₀, hmap⟩ := hyf
  refine ⟨yf₀, hyf₀, ?_⟩
  rw [← hmap]
  simp only [checkedOutputFile]
  cases (match dget old.chats cn with
    | some oc => dget oc.output_files yf₀.1
    | none => none : Option OutputFile) with
  | none => exact ⟨rfl, rfl, rfl⟩
  | some old_file =>
    dsimp only
    by_cases hd : depsDiffer yf₀.2 old_file = true
    · rw [if_pos hd]
      exact ⟨rfl, rfl, rfl⟩
    · rw [if_neg hd]
      exact ⟨rfl, rfl, rfl⟩

/-- The merge fold of one chat only `dput`s into `input_files`: stored keys
stay stored. -/
theorem mergeFold_inf_mono (l : List Tup) :
    ∀ (st : List (ChatFileID × ChatFile) × List String × List Message)
      (k : ChatFileID), (dget st.1 k).isSome = true →
      (dget (l.foldl mergeStep st).1 k).isSome = true := by
  induction l with
  | nil => intro st k h; exact h
  | cons t rest ih =>
    intro st k h
    rw [List.foldl_cons]
    exact ih _ k (dget_isSome_dput _ _ _ _ h)

/-- See `mergeFold_inf_mono`. -/
theorem mergeChatTuples_inf_mono (inf : List (ChatFileID × ChatFile))
    (tuples : List Tup) (k : ChatFileID) (h : (dget inf k).isSome = true) :
    (dget (mergeChatTuples inf tuples).1 k).isSome = true := by
  show (dget ((pySortByMtime tuples).foldl mergeStep (inf, [], [])).1 k).isSome = true
  exact mergeFold_inf_mono _ _ k h

/-- Through the final loop of `process_messages`, every stored chat
message's file id is a stored key of the accumulated `input_files`. -/
theorem processFold_fileids (groups : List (ChatName × List Tup))
    (hg : ∀ kv ∈ groups, ∀ t ∈ kv.2, ∀ m ∈ t.2.2.messages, m.input_file_id = t.2.1.id) :
    ∀ st : List (ChatName × Chat) × List (ChatFileID × ChatFile),
      (∀ kv ∈ st.1, ∀ m ∈ kv.2.messages, (dget st.2 m.input_file_id).isSome = true) →
      ∀ kv ∈ (groups.foldl processChatStep st).1, ∀ m ∈ kv.2.messages,
        (dget (groups.foldl processChatStep st).2 m.input_file_id).isSome = true := by
  induction groups with
  | nil => intro st h kv hkv; exact h kv hkv
  | cons g rest ih =>
    intro st h kv hkv
    rw [List.foldl_cons] at hkv ⊢
    refine ih (fun kv' hkv' => hg kv' (List.mem_cons_of_mem _ hkv')) _ ?_ kv hkv
    intro kv' hkv' m hm
    simp only [processChatStep] at hkv'
    show (dget (mergeChatTuples st.2 g.2).1 m.input_file_id).isSome = true
    rcases mem_dput _ _ _ _ hkv' with h1 | h1
    · rw [h1] at hm
      exact mergeChatTuples_fileids st.2 g.2 (hg g (List.mem_cons_self _ _)) m hm
    · exact mergeChatTuples_inf_mono st.2 g.2 _ (h kv' h1 m hm)

/-- From an empty previous state, every message in `process_messages`'
output references a stored entry of its `input_files`. -/
theorem process_messages_fileids (vfs : VFS) :
    ∀ kv ∈ (process_messages vfs {}).chats, ∀ m ∈ kv.2.messages,
      (dget (process_messages vfs {}).input_files m.input_file_id).isSome = true := by
  intro kv hkv m hm
  have hchats : (process_messages vfs {}).chats =
      ((collectNewFiles vfs []).foldl processChatStep ([], [])).1 := rfl
  have hinf : (process_messages vfs {}).input_files =
      ((collectNewFiles vfs []).foldl processChatStep ([], [])).2 := rfl
  rw [hchats] at hkv
  rw [hinf]
  exact processFold_fileids (collectNewFiles vfs []) (collectNewFiles_fileids' vfs)
    ([], []) (by intro kv' h'; simp at h') kv hkv m hm

/-- Registering a list of media handles preserves stored keys. -/
theorem foldl_reg_mono (l : List ChatFile) :
    ∀ (inf : List (ChatFileID × ChatFile)) (k : ChatFileID),
      (dget inf k).isSome = true →
      (dget (l.foldl (fun inf mf => dput inf mf.id mf) inf) k).isSome = true := by
  induction l with
  | nil => intro inf k h; exact h
  | cons a rest ih =>
    intro inf k h
    rw [List.foldl_cons]
    exact ih _ k (dget_isSome_dput _ _ _ _ h)

/-- Every registered media handle's id is stored afterwards. -/
theorem foldl_reg_self (l : List ChatFile) :
    ∀ (inf : List (ChatFileID × ChatFile)) (mf : ChatFile), mf ∈ l →
      (dget (l.foldl (fun inf mf => dput inf mf.id mf) inf) mf.id).isSome = true := by
  induction l with
  | nil => intro inf mf hmf; simp at hmf
  | cons a rest ih =>
    intro inf mf hmf
    rw [List.foldl_cons]
    rcases List.mem_cons.mp hmf with h1 | h1
    · subst h1
      exact foldl_reg_mono _ _ _ (dget_isSome_dput_self _ _ _)
    · exact ih _ mf h1

/-- The media-registration fold of `process_media_dependencies` preserves
stored keys. -/
theorem mediaFold_mono (vfs : VFS) (chats : List (ChatName × Chat)) :
    ∀ (inf : List (ChatFileID × ChatFile)) (k : ChatFileID),
      (dget inf k).isSome = true →
      (dget (chats.foldl (fun inf kv =>
        (locateMedia vfs kv.2).2.foldl (fun inf mf => dput inf mf.id mf) inf) inf)
        k).isSome = true := by
  induction chats with
  | nil => intro inf k h; exact h
  | cons g rest ih =>
    intro inf k h
    rw [List.foldl_cons]
    exact ih _ k (foldl_reg_mono _ _ _ h)

/-- Every media handle found for a listed chat is stored after the
media-registration fold. -/
theorem mediaFold_found (vfs : VFS) (chats : List (ChatName × Chat)) :
    ∀ (inf : List (ChatFileID × ChatFile)) (kv : ChatName × Chat), kv ∈ chats →
      ∀ mf ∈ (locateMedia vfs kv.2).2,
      (dget (chats.foldl (fun inf kv =>
        (locateMedia vfs kv.2).2.foldl (fun inf mf => dput inf mf.id mf) inf) inf)
        mf.id).isSome = true := by
  induction chats with
  | nil => intro inf kv hkv; simp at hkv
  | cons g rest ih =>
    intro inf kv hkv mf hmf
    rw [List.foldl_cons]
    rcases List.mem_cons.mp hkv with h1 | h1
    · subst h1
      exact mediaFold_mono vfs rest _ _ (foldl_reg_self _ _ mf hmf)
    · exact ih _ kv h1 mf hmf

/-- The closure property through the planner, media and checker stages, for
any data whose messages already reference stored input files. -/
theorem stages_fileids (vfs : VFS) (cssSize cssMtime : Nat) (cd old : ChatData)
    (hcd : ∀ kv ∈ cd.chats, ∀ m ∈ kv.2.messages,
      (dget cd.input_files m.input_file_id).isSome = true)
    (kv : ChatName × Chat)
    (hkv : kv ∈ (check_output_dependencies
      (process_media_dependencies (generate_output_files cssSize cssMtime cd) vfs)
      old).chats) :
    (∀ m ∈ kv.2.messages,
      (dget (check_output_dependencies
        (process_media_dependencies (generate_output_files cssSize cssMtime cd) vfs)
        old).input_files m.input_file_id).isSome = true) ∧
    ∀ yf ∈ kv.2.output_files,
      (∀ i ∈ yf.2.chat_dependencies,
        (dget (check_output_dependencies
          (process_media_dependencies (generate_output_files cssSize cssMtime cd) vfs)
          old).input_files i).isSome = true) ∧
      (∀ nv ∈ yf.2.media_dependencies, ∀ i, nv.2 = some i →
        (dget (check_output_dependencies
          (process_media_dependencies (generate_output_files cssSize cssMtime cd) vfs)
          old).input_files i).isSome = true) ∧
      (∀ i, yf.2.css_dependency = some i →
        (dget (check_output_dependencies
          (process_media_dependencies (generate_output_files cssSize cssMtime cd) vfs)
          old).input_files i).isSome = true) := by
  have hmono : ∀ k : ChatFileID, (dget cd.input_files k).isSome = true →
      (dget (check_output_dependencies (process_media_dependencies
        (generate_output_files cssSize cssMtime cd) vfs) old).input_files k).isSome = true := by
    intro k h
    show (dget ((generate_output_files cssSize cssMtime cd).chats.foldl (fun inf kv =>
      (locateMedia vfs kv.2).2.foldl (fun inf mf => dput inf mf.id mf) inf)
      (generate_output_files cssSize cssMtime cd).input_files) k).isSome = true
    refine mediaFold_mono vfs _ _ k ?_
    show (dget (dput cd.input_files (cssFile cssSize cssMtime).id
      (cssFile cssSize cssMtime)) k).isSome = true
    exact dget_isSome_dput _ _ _ _ h
  have hcss : (dget (check_output_dependencies (process_media_dependencies
      (generate_output_files cssSize cssMtime cd) vfs) old).input_files
      (cssFile cssSize cssMtime).id).isSome = true := by
    show (dget ((generate_output_files cssSize cssMtime cd).chats.foldl (fun inf kv =>
      (locateMedia vfs kv.2).2.foldl (fun inf mf => dput inf mf.id mf) inf)
      (generate_output_files cssSize cssMtime cd).input_files)
      (cssFile cssSize cssMtime).id).isSome = true
    refine mediaFold_mono vfs _ _ _ ?_
    show (dget (dput cd.input_files (cssFile cssSize cssMtime).id
      (cssFile cssSize cssMtime)) (cssFile cssSize cssMtime).id).isSome = true
    exact dget_isSome_dput_self _ _ _
  have hfound : ∀ kv3 ∈ (generate_output_files cssSize cssMtime cd).chats,
      ∀ mf ∈ (locateMedia vfs kv3.2).2,
      (dget (check_output_dependencies (process_media_dependencies
        (generate_output_files cssSize cssMtime cd) vfs) old).input_files
        mf.id).isSome = true := by
    intro kv3 hkv3 mf hmf
    show (dget ((generate_output_files cssSize cssMtime cd).chats.foldl (fun inf kv =>
      (locateMedia vfs kv.2).2.foldl (fun inf mf => dput inf mf.id mf) inf)
      (generate_output_files cssSize cssMtime cd).input_files) mf.id).isSome = true
    exact mediaFold_found vfs _ _ kv3 hkv3 mf hmf
  have hkv' := hkv
  rw [show (check_output_dependencies (process_media_dependencies
      (generate_output_files cssSize cssMtime cd) vfs) old).chats =
      (process_media_dependencies (generate_output_files cssSize cssMtime cd) vfs).chats.map
        (fun kv => (kv.1, checkedChat old kv.1 kv.2)) from rfl] at hkv'
  simp only [List.mem_map] at hkv'
  obtain ⟨kv4, hkv4, hkv4e⟩ := hkv'
  rw [show (process_media_dependencies (generate_output_files cssSize cssMtime cd) vfs).chats =
      (generate_output_files cssSize cssMtime cd).chats.map
        (fun kv => (kv.1, mediaChat vfs kv.2)) from rfl] at hkv4
  simp only [List.mem_map] at hkv4
  obtain ⟨kv3, hkv3, hkv3e⟩ := hkv4
  have hkv3cd := hkv3
  rw [show (generate_output_files cssSize cssMtime cd).chats =
      cd.chats.map (fun kv => (kv.1, plannedChat (cssFile cssSize cssMtime) kv.2))
      from rfl] at hkv3cd
  simp only [List.mem_map] at hkv3cd
  obtain ⟨kv2, hkv2, hkv2e⟩ := hkv3cd
  have hk2 : kv.2 = checkedChat old kv4.1 kv4.2 := by rw [← hkv4e]
  have hk42 : kv4.2 = mediaChat vfs kv3.2 := by rw [← hkv3e]
  have hk32 : kv3.2 = plannedChat (cssFile cssSize cssMtime) kv2.2 := by rw [← hkv2e]
  have hmsgs : kv.2.messages = kv2.2.messages := by
    rw [hk2, checkedChat_messages, hk42, mediaChat_messages, hk32, plannedChat_messages]
  constructor
  · intro m hm
    rw [hmsgs] at hm
    exact hmono _ (hcd kv2 hkv2 m hm)
  · intro yf hyf
    rw [hk2] at hyf
    obtain ⟨yf4, hyf4, hcdep, hmdep, hcssdep⟩ :=
      checkedChat_outputs old kv4.1 kv4.2 yf hyf
    rw [hk42] at hyf4
    obtain ⟨yf3, hyf3, hcdep3, hcssdep3, hmedia3⟩ :=
      mediaChat_outputs vfs kv3.2 yf4 hyf4
    rw [hk32] at hyf3
    obtain ⟨hm3, hcssv3, hdeps3⟩ :=
      plannedChat_outputs (cssFile cssSize cssMtime) kv2.2 yf3 hyf3
    refine ⟨?_, ?_, ?_⟩
    · intro i hi
      rw [hcdep, hcdep3] at hi
      obtain ⟨m, hm, hmi⟩ := hdeps3 i hi
      rw [← hmi]
      exact hmono _ (hcd kv2 hkv2 m hm)
    · intro nv hnv i hi
      rw [hmdep] at hnv
      rcases hmedia3 nv hnv with h1 | h1
      · rw [hm3] at h1; simp at h1
      · obtain ⟨yd, hyd, hnvyd⟩ := h1
        obtain ⟨mf, hmf, hmi⟩ := locateMedia_found vfs kv3.2 yd hyd nv hnvyd i hi
        rw [← hmi]
        exact hfound kv3 hkv3 mf hmf
    · intro i hi
      rw [hcssdep, hcssdep3, hcssv3] at hi
      rw [← Option.some.inj hi]
      exact hcss

/-- C5 (counterexample to the unrestricted claim): in a two-run chain the
transcript `exE2` vanishes before the second run.  The second run's history
seeding keeps the chat's old messages (including the one from `exE2`) but
records only the seed file in `input_files`, so the resulting `ChatData`
`exCdB5` contains a message whose `input_file_id` has no `input_files`
entry. -/
theorem c5_counterexample :
    ∃ kv ∈ exCdB5.chats, ∃ m ∈ kv.2.messages,
      (dget exCdB5.input_files m.input_file_id).isSome = false := by decide

/-- C5 (amended: runs from empty previous state): in the `ChatData`
produced by the pipeline from an empty previous state, every file id
referenced from any message's `input_file_id` or from any output file's
`chat_dependencies`, `media_dependencies` values or `css_dependency` has an
entry in `input_files`. -/
theorem c5_input_files_closed (v : VFS) (cssSize cssMtime : Nat) (ts : String)
    (kv : ChatName × Chat)
    (hkv : kv ∈ (runPipeline v cssSize cssMtime ts {}).chats) :
    (∀ m ∈ kv.2.messages,
      (dget (runPipeline v cssSize cssMtime ts {}).input_files
        m.input_file_id).isSome = true) ∧
    ∀ yf ∈ kv.2.output_files,
      (∀ i ∈ yf.2.chat_dependencies,
        (dget (runPipeline v cssSize cssMtime ts {}).input_files i).isSome = true) ∧
      (∀ nv ∈ yf.2.media_dependencies, ∀ i, nv.2 = some i →
        (dget (runPipeline v cssSize cssMtime ts {}).input_files i).isSome = true) ∧
      (∀ i, yf.2.css_dependency = some i →
        (dget (runPipeline v cssSize cssMtime ts {}).input_files i).isSome = true) :=
  stages_fileids (merge_chat_files_into_vfs {} v) cssSize cssMtime
    { process_messages (merge_chat_files_into_vfs {} v) {} with timestamp := ts } {}
    (fun kv' hkv' m hm =>
      process_messages_fileids (merge_chat_files_into_vfs {} v) kv' hkv' m hm)
    kv hkv

/-- C5 witness: the amended theorem applied to the concrete single-file run
`exRunC5` and its chat entry `exKvC5`. -/
theorem c5_input_files_closed_witness :
    exKvC5 ∈ exRunC5.chats ∧
    ((∀ m ∈ exKvC5.2.messages,
        (dget exRunC5.input_files m.input_file_id).isSome = true) ∧
      ∀ yf ∈ exKvC5.2.output_files,
        (∀ i ∈ yf.2.chat_dependencies,
          (dget exRunC5.input_files i).isSome = true) ∧
        (∀ nv ∈ yf.2.media_dependencies, ∀ i, nv.2 = some i →
          (dget exRunC5.input_files i).isSome = true) ∧
        (∀ i, yf.2.css_dependency = some i →
          (dget exRunC5.input_files i).isSome = true)) :=
  ⟨by decide, c5_input_files_closed exVfsCss 10 7 "t" exKvC5 (by decide)⟩

/-! ## C6: seeding of historical chats -/

/-- C6 (the code evaluated at the failing input): the previous data
`exOldHist` has one chat with one message whose input file is present in
the VFS only as a historical handle with `exists=false` (exactly the state
`merge_chat_files_into_vfs` produces for a vanished input file).  The seed
guard `file_id.value and (vfs.exists(file_id) or not vfs.get_by_id(file_id))`
rejects every message, so `process_messages` seeds nothing and the chat's
messages are dropped — both when called directly on such a VFS and through
the full pipeline starting from an empty VFS. -/
theorem c6_historical_chat_dropped :
    (dget exOldHist.chats ⟨"S"⟩).map (fun c => c.messages.length) = some 1 ∧
    exVfsHist.get_by_id exHist.id = some exHist ∧
    exHist.exists_ = false ∧
    (process_messages exVfsHist exOldHist).chats = [] ∧
    (runPipeline ({} : VFS) 10 7 "t" exOldHist).chats = [] := by
  refine ⟨by decide, by decide, by decide, by decide, by decide⟩

/-- Witness for `c4_checker_flag` at a concrete input. -/
theorem c4_checker_flag_witness :
    ∃ chat₀ f₀, dget exNewC4.chats ⟨"S"⟩ = some chat₀ ∧
      dget chat₀.output_files 2022 = some f₀ ∧
      exOut true = { f₀ with generate := (exOut true).generate } ∧
      (exOut true).generate = (f₀.generate ||
        (match dget exOldC4.chats ⟨"S"⟩ with
         | none => true
         | some oc =>
           match dget oc.output_files 2022 with
           | none => true
           | some old_file => depsDiffer f₀ old_file)) :=
  c4_checker_flag exNewC4 exOldC4 ⟨"S"⟩
    { chat_name := ⟨"S"⟩, output_files := [(2022, exOut true)] } 2022 (exOut true)
    (by decide) (by decide)

end WArch
